import Mathlib

/-!
A Lean 4 embedding of the source-position primitives (`common/src/syntax_pos.rs`)
and of the ES2015 lowering passes for class constructors
(`ecmascript/transforms/src/compat/es2015/classes/constructor.rs`) and
destructuring (`ecmascript/transforms/src/compat/es2015/destructuring.rs`),
together with theorems about span algebra, line lookup, BOM removal,
super-call analysis, and destructuring lowering.

Machine integers are embedded as `Nat` (with an explicit `% 2 ^ 32` where a
`u32` truncation happens in the source); code that can panic is embedded as
an `Option`-valued function returning `none` on the panicking path.
-/

namespace Swc

/-- A byte offset: `pub struct BytePos(pub u32)`.  The `u32` payload is
embedded as a `Nat`; the `2 ^ 32` bound is carried as a hypothesis in the
theorems where it matters. -/
structure BytePos where
  val : Nat
deriving DecidableEq, Repr

/-- `cmp::min` on `BytePos` (the derived `Ord` compares the payload; Rust's
`min` returns the first argument on ties). -/
def bytePosMin (a b : BytePos) : BytePos := if a.val ≤ b.val then a else b

/-- `cmp::max` on `BytePos` (Rust's `max` returns the second argument on
ties). -/
def bytePosMax (a b : BytePos) : BytePos := if a.val ≤ b.val then b else a

/-- `impl Sub for BytePos`: `BytePos((self.to_usize() - rhs.to_usize()) as u32)`.
The `usize` subtraction fails (panics) on unsigned underflow, embedded as
`none`; the `as u32` cast truncates modulo `2 ^ 32`. -/
def bytePosSub (a b : BytePos) : Option BytePos :=
  if b.val ≤ a.val then some ⟨(a.val - b.val) % 2 ^ 32⟩ else none

/-- A `SyntaxContext` is a 32-bit handle identifying a macro-expansion
context; `0` is the empty (root) context `SyntaxContext::empty()`
(`NO_EXPANSION`). -/
abbrev SyntaxContext := Nat

/-- The root context `SyntaxContext::empty()`. -/
def SyntaxContext.root : SyntaxContext := 0

/-- `SpanData { lo, hi, ctxt }`.  A `Span` is an interned handle for a
`SpanData`; per the interning round-trip (`Span::new` encodes, `Span::data`
decodes, `intern(decode(s)) == s`), a span is embedded directly as its
decoded `SpanData`.  All span operations in the source operate on the
decoded data. -/
structure SpanData where
  lo : BytePos
  hi : BytePos
  ctxt : SyntaxContext
deriving DecidableEq, Repr

/-- `Span::is_dummy`: true iff `lo.0 == 0 && hi.0 == 0` (any hygienic
context). -/
def SpanData.is_dummy (s : SpanData) : Bool :=
  s.lo.val == 0 && s.hi.val == 0

/-- `Span::substitute_dummy`: returns `self` if `self` is not the dummy
span, and `other` otherwise. -/
def SpanData.substitute_dummy (s other : SpanData) : SpanData :=
  if s.is_dummy then other else s

/-- `Span::to`: if the contexts differ and `self`'s context is the root,
return `end` on its own; if they differ and `end`'s context is the root,
return `self` on its own; otherwise build the enclosing span
`Span::new(min(lo), max(hi), if self.ctxt == empty then end.ctxt else self.ctxt)`. -/
def SpanData.to (s e : SpanData) : SpanData :=
  if s.ctxt ≠ e.ctxt ∧ s.ctxt = SyntaxContext.root then e
  else if s.ctxt ≠ e.ctxt ∧ e.ctxt = SyntaxContext.root then s
  else
    { lo := bytePosMin s.lo e.lo
      hi := bytePosMax s.hi e.hi
      ctxt := if s.ctxt = SyntaxContext.root then e.ctxt else s.ctxt }

/-- The UTF-8 byte-order-mark code point `U+FEFF`. -/
def bomChar : Char := Char.ofNat 0xFEFF

/-- `remove_bom`: if the text starts with `"\u{feff}"`, drain its first
three bytes (exactly the three UTF-8 bytes of the BOM character).  The
text is embedded as a list of characters, so draining the three BOM bytes
is dropping the first character when it is `U+FEFF`. -/
def remove_bom (src : List Char) : List Char :=
  match src with
  | [] => []
  | c :: rest => if c = bomChar then rest else c :: rest

/-- Result of Rust's `slice::binary_search`: `found i` for `Ok(i)` (an index
holding a matching element) and `notFound i` for `Err(i)` (the insertion
point). -/
inductive SearchResult where
  | found (i : Nat)
  | notFound (i : Nat)
deriving DecidableEq, Repr

/-- Modelled from the spec: Rust's `slice::binary_search` by its contract on
a sorted slice (`line_of(pos)` — binary search `lines`): `Ok` with the index
of a matching element when the key occurs, else `Err` with the insertion
point (the number of elements smaller than the key).  Positions (`BytePos`)
are embedded as `Nat` here; the `u32` payload and its order coincide. -/
def binary_search (l : List Nat) (x : Nat) : SearchResult :=
  if x ∈ l then .found (l.indexOf x) else .notFound (l.countP (fun a => a < x))

/-- `fn lookup_line(lines: &[BytePos], pos: BytePos) -> isize`: binary
search; `Ok(line) => line`, `Err(line) => line - 1` (so `-1` when the
position precedes the first line start). -/
def lookup_line (lines : List Nat) (pos : Nat) : Int :=
  match binary_search lines pos with
  | .found line => (line : Int)
  | .notFound line => (line : Int) - 1

/-- The fields of `SourceFile` that the line queries use: the start/end
positions of the file in the source map and the line-start table. -/
structure SourceFile where
  start_pos : Nat
  end_pos : Nat
  lines : List Nat
deriving DecidableEq, Repr

/-- `SourceFile::lookup_line`: `None` for an empty `lines` table, otherwise
run `lookup_line`, `assert!(line_index < self.lines.len() as isize)`
(assertion failure embedded as `none`), and return `Some` of the index when
it is non-negative, `None` otherwise. -/
def SourceFile.lookup_line (f : SourceFile) (pos : Nat) : Option Nat :=
  if f.lines.isEmpty then none
  else
    let line_index := Swc.lookup_line f.lines pos
    if line_index < (f.lines.length : Int) then
      if 0 ≤ line_index then some line_index.toNat else none
    else none

/-- `SourceFile::line_bounds`: for an empty file (`start_pos == end_pos`)
return `(start_pos, end_pos)` immediately; otherwise
`assert!(line_index < self.lines.len())` (assertion failure embedded as
`none`) and return `(lines[i], end_pos)` for the last line or
`(lines[i], lines[i + 1])` otherwise. -/
def SourceFile.line_bounds (f : SourceFile) (line_index : Nat) : Option (Nat × Nat) :=
  if f.start_pos = f.end_pos then some (f.start_pos, f.end_pos)
  else if line_index < f.lines.length then
    if line_index = f.lines.length - 1 then
      some (f.lines.getD line_index 0, f.end_pos)
    else
      some (f.lines.getD line_index 0, f.lines.getD (line_index + 1) 0)
  else none

/-!
The AST fragment shared by the ES2015 passes.  The node kinds are the ones
the constructor-lowering and destructuring passes inspect: identifiers,
`this`, literals, calls (with `super` or expression callees), `new`,
member/assignment/conditional/binary/unary/sequence/array expressions,
arrows and function expressions, and the statement kinds
expression/variable-declaration/if/return/block, together with the pattern
kinds identifier/array/object/assignment/rest/expression.  Spans are not
carried (no claim depends on them); identifiers carry their hygiene context.
-/

/-- An identifier: symbol plus hygiene context.  Identifiers written in
source code carry the root context `0`; `private_ident!`/`quote_ident!` with
a fresh mark produce a non-root context. -/
structure Ident where
  sym : String
  ctxt : SyntaxContext
deriving DecidableEq, Repr

/-- The binary operators the passes emit: `op!("===")` and `op!("!==")`. -/
inductive BinOp where
  | eqeqeq
  | noteqeq
deriving DecidableEq, Repr

/-- The unary operator the passes emit: `op!("void")`. -/
inductive UnaryOp where
  | voidOp
deriving DecidableEq, Repr

/-- Literals.  Numeric literals are `f64` in the source; the passes only
ever emit integral values (indices, element counts, user constants), so the
payload is embedded as `Int`. -/
inductive Lit where
  | num (value : Int)
  | str (value : String)
  | null
deriving DecidableEq, Repr

/-- `VarDeclKind`: `var` / `let` / `const`. -/
inductive VarDeclKind where
  | varKind
  | letKind
  | constKind
deriving DecidableEq, Repr

mutual
/-- Expression fragment of `ast::Expr`.  `superCall args` is
`Expr::Call(CallExpr { callee: ExprOrSuper::Super(..), args, .. })` and
`call callee args` is a `CallExpr` with an expression callee; `assign` is an
`AssignExpr` with operator `op!("=")` (the only assignment operator the
destructuring pass rewrites). -/
inductive Expr where
  | ident (i : Ident)
  | thisExpr
  | lit (l : Lit)
  | superCall (args : List ExprOrSpread)
  | call (callee : Expr) (args : List ExprOrSpread)
  | newExpr (callee : Expr) (args : List ExprOrSpread)
  | member (obj : Expr) (prop : Expr) (computed : Bool)
  | assign (left : PatOrExpr) (right : Expr)
  | cond (test : Expr) (cons : Expr) (alt : Expr)
  | bin (op : BinOp) (left : Expr) (right : Expr)
  | unary (op : UnaryOp) (arg : Expr)
  | seq (exprs : List Expr)
  | arrow (params : List Pat) (body : List Stmt)
  | fnExpr (params : List Pat) (body : List Stmt)
  | array (elems : List (Option ExprOrSpread))

/-- `ExprOrSpread { spread: Option<Span>, expr }`: the spread marker is
embedded as a `Bool`. -/
inductive ExprOrSpread where
  | mk (spread : Bool) (expr : Expr)

/-- `PatOrExpr`: the left-hand side of an assignment. -/
inductive PatOrExpr where
  | pat (p : Pat)
  | expr (e : Expr)

/-- Pattern fragment of `ast::Pat`. -/
inductive Pat where
  | ident (i : Ident)
  | array (elems : List (Option Pat))
  | object (props : List ObjectPatProp)
  | assign (left : Pat) (right : Expr)
  | rest (arg : Pat)
  | exprPat (e : Expr)

/-- `ObjectPatProp`: `KeyValue(KeyValuePatProp { key, value })` or
`Assign(AssignPatProp { key, value })`.  (`Rest` is assumed eliminated by the
upstream ES2018 pass and is not part of the fragment.) -/
inductive ObjectPatProp where
  | keyValue (key : PropName) (value : Pat)
  | assignProp (key : Ident) (value : Option Expr)

/-- `PropName`: identifier, string, numeric, or computed property key. -/
inductive PropName where
  | identKey (s : String)
  | strKey (s : String)
  | numKey (n : Int)
  | computed (e : Expr)

/-- Statement fragment of `ast::Stmt`.  `decl` is `Stmt::Decl(Decl::Var)`. -/
inductive Stmt where
  | expr (e : Expr)
  | decl (d : VarDecl)
  | ifStmt (test : Expr) (cons : Stmt) (alt : Option Stmt)
  | ret (arg : Option Expr)
  | block (stmts : List Stmt)

/-- `VarDecl { kind, decls }` (the `declare` flag is dropped). -/
inductive VarDecl where
  | mk (kind : VarDeclKind) (decls : List VarDeclarator)

/-- `VarDeclarator { name, init }` (the `definite` flag is dropped). -/
inductive VarDeclarator where
  | mk (name : Pat) (init : Option Expr)
end

/-- The pattern of a declarator. -/
def VarDeclarator.name : VarDeclarator → Pat
  | .mk n _ => n

/-- The initializer of a declarator. -/
def VarDeclarator.init : VarDeclarator → Option Expr
  | .mk _ i => i

/-- The spread flag of an `ExprOrSpread`. -/
def ExprOrSpread.spread : ExprOrSpread → Bool
  | .mk s _ => s

/-- The expression of an `ExprOrSpread`. -/
def ExprOrSpread.expr : ExprOrSpread → Expr
  | .mk _ e => e

/-- A sum of the AST node kinds, used as the argument type of the visitor
functions below so that each traversal is a single function (one entry point
per node kind, as in the `Visit` dispatch). -/
inductive Node where
  | e (x : Expr)
  | exprList (xs : List Expr)
  | eos (x : ExprOrSpread)
  | eosList (xs : List ExprOrSpread)
  | optEosList (xs : List (Option ExprOrSpread))
  | p (x : Pat)
  | patList (xs : List Pat)
  | optPatList (xs : List (Option Pat))
  | opp (x : ObjectPatProp)
  | oppList (xs : List ObjectPatProp)
  | pname (x : PropName)
  | poe (x : PatOrExpr)
  | s (x : Stmt)
  | stmtList (xs : List Stmt)
  | vd (x : VarDecl)
  | vdr (x : VarDeclarator)
  | vdrList (xs : List VarDeclarator)

/-!
`SuperCallFinder` (`compat/es2015/classes/constructor.rs`).
-/

/-- `enum SuperFoldingMode { Assign, Var }`. -/
inductive SuperFoldingMode where
  | assign
  | var
deriving DecidableEq, Repr

/-- The mode transition performed by `Visit<CallExpr> for SuperCallFinder`
when the callee is `super`:
`None if !in_complex => Var`, `None if in_complex => Assign`,
`Some(Var) => Assign`, `_ => {}` (i.e. `Some(Assign)` stays). -/
def superCallUpdate (inComplex : Bool) (mode : Option SuperFoldingMode) :
    Option SuperFoldingMode :=
  match mode with
  | none => if inComplex then some .assign else some .var
  | some .var => some .assign
  | some .assign => some .assign

/-- The traversal of `SuperCallFinder` (fuel-indexed; `none` = out of fuel).
State: `inC` is the `in_complex` flag, `m` the current `mode`.  The default
is pre-order `visit_children` in source order; the overridden node kinds
are:
* `CallExpr` with a `super` callee: update the mode, do not recurse into the
  arguments;
* `MemberExpr`: visit the children first, then if the object is a
  `super(...)` call set the mode to `Assign` (the `super().foo` case);
* `AssignExpr`: visit the left side normally, then the right side with
  `in_complex` set;
* `ArrowExpr`, `IfStmt`, `PropName` (`mark_as_complex!`): visit the children
  with `in_complex` set;
* `Class`, `Function`: do not recurse. -/
def scfVisit (fuel : Nat) (inC : Bool) (m : Option SuperFoldingMode) (node : Node) :
    Option (Option SuperFoldingMode) :=
  match fuel with
  | 0 => none
  | fuel + 1 =>
    match node with
    | .e (.ident _) => some m
    | .e .thisExpr => some m
    | .e (.lit _) => some m
    | .e (.superCall _) => some (superCallUpdate inC m)
    | .e (.call callee args) =>
      match scfVisit fuel inC m (.e callee) with
      | none => none
      | some m1 => scfVisit fuel inC m1 (.eosList args)
    | .e (.newExpr callee args) =>
      match scfVisit fuel inC m (.e callee) with
      | none => none
      | some m1 => scfVisit fuel inC m1 (.eosList args)
    | .e (.member obj prop _) =>
      match scfVisit fuel inC m (.e obj) with
      | none => none
      | some m1 =>
        match scfVisit fuel inC m1 (.e prop) with
        | none => none
        | some m2 =>
          match obj with
          | .superCall _ => some (some .assign)
          | _ => some m2
    | .e (.assign left right) =>
      match scfVisit fuel inC m (.poe left) with
      | none => none
      | some m1 => scfVisit fuel true m1 (.e right)
    | .e (.cond t c a) =>
      match scfVisit fuel inC m (.e t) with
      | none => none
      | some m1 =>
        match scfVisit fuel inC m1 (.e c) with
        | none => none
        | some m2 => scfVisit fuel inC m2 (.e a)
    | .e (.bin _ l r) =>
      match scfVisit fuel inC m (.e l) with
      | none => none
      | some m1 => scfVisit fuel inC m1 (.e r)
    | .e (.unary _ a) => scfVisit fuel inC m (.e a)
    | .e (.seq es) => scfVisit fuel inC m (.exprList es)
    | .e (.arrow params body) =>
      match scfVisit fuel true m (.patList params) with
      | none => none
      | some m1 => scfVisit fuel true m1 (.stmtList body)
    | .e (.fnExpr _ _) => some m
    | .e (.array elems) => scfVisit fuel inC m (.optEosList elems)
    | .exprList [] => some m
    | .exprList (e :: rest) =>
      match scfVisit fuel inC m (.e e) with
      | none => none
      | some m1 => scfVisit fuel inC m1 (.exprList rest)
    | .eos x => scfVisit fuel inC m (.e x.expr)
    | .eosList [] => some m
    | .eosList (a :: rest) =>
      match scfVisit fuel inC m (.eos a) with
      | none => none
      | some m1 => scfVisit fuel inC m1 (.eosList rest)
    | .optEosList [] => some m
    | .optEosList (a :: rest) =>
      match (match a with
             | none => some m
             | some x => scfVisit fuel inC m (.eos x)) with
      | none => none
      | some m1 => scfVisit fuel inC m1 (.optEosList rest)
    | .p (.ident _) => some m
    | .p (.array elems) => scfVisit fuel inC m (.optPatList elems)
    | .p (.object props) => scfVisit fuel inC m (.oppList props)
    | .p (.assign l r) =>
      match scfVisit fuel inC m (.p l) with
      | none => none
      | some m1 => scfVisit fuel inC m1 (.e r)
    | .p (.rest a) => scfVisit fuel inC m (.p a)
    | .p (.exprPat e) => scfVisit fuel inC m (.e e)
    | .patList [] => some m
    | .patList (x :: rest) =>
      match scfVisit fuel inC m (.p x) with
      | none => none
      | some m1 => scfVisit fuel inC m1 (.patList rest)
    | .optPatList [] => some m
    | .optPatList (x :: rest) =>
      match (match x with
             | none => some m
             | some y => scfVisit fuel inC m (.p y)) with
      | none => none
      | some m1 => scfVisit fuel inC m1 (.optPatList rest)
    | .opp (.keyValue key value) =>
      match scfVisit fuel inC m (.pname key) with
      | none => none
      | some m1 => scfVisit fuel inC m1 (.p value)
    | .opp (.assignProp _ value) =>
      match value with
      | none => some m
      | some v => scfVisit fuel inC m (.e v)
    | .oppList [] => some m
    | .oppList (x :: rest) =>
      match scfVisit fuel inC m (.opp x) with
      | none => none
      | some m1 => scfVisit fuel inC m1 (.oppList rest)
    | .pname (.identKey _) => some m
    | .pname (.strKey _) => some m
    | .pname (.numKey _) => some m
    | .pname (.computed e) => scfVisit fuel true m (.e e)
    | .poe (.pat x) => scfVisit fuel inC m (.p x)
    | .poe (.expr x) => scfVisit fuel inC m (.e x)
    | .s (.expr e) => scfVisit fuel inC m (.e e)
    | .s (.decl d) => scfVisit fuel inC m (.vd d)
    | .s (.ifStmt t c a) =>
      match scfVisit fuel true m (.e t) with
      | none => none
      | some m1 =>
        match scfVisit fuel true m1 (.s c) with
        | none => none
        | some m2 =>
          match a with
          | none => some m2
          | some s2 => scfVisit fuel true m2 (.s s2)
    | .s (.ret arg) =>
      match arg with
      | none => some m
      | some e => scfVisit fuel inC m (.e e)
    | .s (.block ss) => scfVisit fuel inC m (.stmtList ss)
    | .stmtList [] => some m
    | .stmtList (x :: rest) =>
      match scfVisit fuel inC m (.s x) with
      | none => none
      | some m1 => scfVisit fuel inC m1 (.stmtList rest)
    | .vd (.mk _ ds) => scfVisit fuel inC m (.vdrList ds)
    | .vdr (.mk name init) =>
      match scfVisit fuel inC m (.p name) with
      | none => none
      | some m1 =>
        match init with
        | none => some m1
        | some e => scfVisit fuel inC m1 (.e e)
    | .vdrList [] => some m
    | .vdrList (x :: rest) =>
      match scfVisit fuel inC m (.vdr x) with
      | none => none
      | some m1 => scfVisit fuel inC m1 (.vdrList rest)

/-- The number of `super(...)` call expressions occurring in a node, not
counting occurrences inside nested function expressions (which
`SuperCallFinder` never visits); occurrences inside arrow bodies, patterns,
property keys, and the arguments of other calls (including of `super` calls
themselves) are counted.  Fuel-indexed; `none` = out of fuel. -/
def superCount (fuel : Nat) (node : Node) : Option Nat :=
  match fuel with
  | 0 => none
  | fuel + 1 =>
    match node with
    | .e (.ident _) => some 0
    | .e .thisExpr => some 0
    | .e (.lit _) => some 0
    | .e (.superCall args) =>
      match superCount fuel (.eosList args) with
      | none => none
      | some a => some (a + 1)
    | .e (.call callee args) =>
      match superCount fuel (.e callee) with
      | none => none
      | some a =>
        match superCount fuel (.eosList args) with
        | none => none
        | some b => some (a + b)
    | .e (.newExpr callee args) =>
      match superCount fuel (.e callee) with
      | none => none
      | some a =>
        match superCount fuel (.eosList args) with
        | none => none
        | some b => some (a + b)
    | .e (.member obj prop _) =>
      match superCount fuel (.e obj) with
      | none => none
      | some a =>
        match superCount fuel (.e prop) with
        | none => none
        | some b => some (a + b)
    | .e (.assign left right) =>
      match superCount fuel (.poe left) with
      | none => none
      | some a =>
        match superCount fuel (.e right) with
        | none => none
        | some b => some (a + b)
    | .e (.cond t c a) =>
      match superCount fuel (.e t) with
      | none => none
      | some x =>
        match superCount fuel (.e c) with
        | none => none
        | some y =>
          match superCount fuel (.e a) with
          | none => none
          | some z => some (x + y + z)
    | .e (.bin _ l r) =>
      match superCount fuel (.e l) with
      | none => none
      | some a =>
        match superCount fuel (.e r) with
        | none => none
        | some b => some (a + b)
    | .e (.unary _ a) => superCount fuel (.e a)
    | .e (.seq es) => superCount fuel (.exprList es)
    | .e (.arrow params body) =>
      match superCount fuel (.patList params) with
      | none => none
      | some a =>
        match superCount fuel (.stmtList body) with
        | none => none
        | some b => some (a + b)
    | .e (.fnExpr _ _) => some 0
    | .e (.array elems) => superCount fuel (.optEosList elems)
    | .exprList [] => some 0
    | .exprList (e :: rest) =>
      match superCount fuel (.e e) with
      | none => none
      | some a =>
        match superCount fuel (.exprList rest) with
        | none => none
        | some b => some (a + b)
    | .eos x => superCount fuel (.e x.expr)
    | .eosList [] => some 0
    | .eosList (a :: rest) =>
      match superCount fuel (.eos a) with
      | none => none
      | some x =>
        match superCount fuel (.eosList rest) with
        | none => none
        | some y => some (x + y)
    | .optEosList [] => some 0
    | .optEosList (a :: rest) =>
      match (match a with
             | none => some 0
             | some x => superCount fuel (.eos x)) with
      | none => none
      | some x =>
        match superCount fuel (.optEosList rest) with
        | none => none
        | some y => some (x + y)
    | .p (.ident _) => some 0
    | .p (.array elems) => superCount fuel (.optPatList elems)
    | .p (.object props) => superCount fuel (.oppList props)
    | .p (.assign l r) =>
      match superCount fuel (.p l) with
      | none => none
      | some a =>
        match superCount fuel (.e r) with
        | none => none
        | some b => some (a + b)
    | .p (.rest a) => superCount fuel (.p a)
    | .p (.exprPat e) => superCount fuel (.e e)
    | .patList [] => some 0
    | .patList (x :: rest) =>
      match superCount fuel (.p x) with
      | none => none
      | some a =>
        match superCount fuel (.patList rest) with
        | none => none
        | some b => some (a + b)
    | .optPatList [] => some 0
    | .optPatList (x :: rest) =>
      match (match x with
             | none => some 0
             | some y => superCount fuel (.p y)) with
      | none => none
      | some a =>
        match superCount fuel (.optPatList rest) with
        | none => none
        | some b => some (a + b)
    | .opp (.keyValue key value) =>
      match superCount fuel (.pname key) with
      | none => none
      | some a =>
        match superCount fuel (.p value) with
        | none => none
        | some b => some (a + b)
    | .opp (.assignProp _ value) =>
      match value with
      | none => some 0
      | some v => superCount fuel (.e v)
    | .oppList [] => some 0
    | .oppList (x :: rest) =>
      match superCount fuel (.opp x) with
      | none => none
      | some a =>
        match superCount fuel (.oppList rest) with
        | none => none
        | some b => some (a + b)
    | .pname (.identKey _) => some 0
    | .pname (.strKey _) => some 0
    | .pname (.numKey _) => some 0
    | .pname (.computed e) => superCount fuel (.e e)
    | .poe (.pat x) => superCount fuel (.p x)
    | .poe (.expr x) => superCount fuel (.e x)
    | .s (.expr e) => superCount fuel (.e e)
    | .s (.decl d) => superCount fuel (.vd d)
    | .s (.ifStmt t c a) =>
      match superCount fuel (.e t) with
      | none => none
      | some x =>
        match superCount fuel (.s c) with
        | none => none
        | some y =>
          match (match a with
                 | none => some 0
                 | some s2 => superCount fuel (.s s2)) with
          | none => none
          | some z => some (x + y + z)
    | .s (.ret arg) =>
      match arg with
      | none => some 0
      | some e => superCount fuel (.e e)
    | .s (.block ss) => superCount fuel (.stmtList ss)
    | .stmtList [] => some 0
    | .stmtList (x :: rest) =>
      match superCount fuel (.s x) with
      | none => none
      | some a =>
        match superCount fuel (.stmtList rest) with
        | none => none
        | some b => some (a + b)
    | .vd (.mk _ ds) => superCount fuel (.vdrList ds)
    | .vdr (.mk name init) =>
      match superCount fuel (.p name) with
      | none => none
      | some a =>
        match (match init with
               | none => some 0
               | some e => superCount fuel (.e e)) with
        | none => none
        | some b => some (a + b)
    | .vdrList [] => some 0
    | .vdrList (x :: rest) =>
      match superCount fuel (.vdr x) with
      | none => none
      | some a =>
        match superCount fuel (.vdrList rest) with
        | none => none
        | some b => some (a + b)

/-- Whether the last statement of a constructor body is an expression
statement that is a `super(...)` call — the pattern matched by the early
return of `SuperCallFinder::find`:
`Some(Stmt::Expr(box Expr::Call(CallExpr { callee: ExprOrSuper::Super(..), .. })))`. -/
def isTailSuperStmt (body : List Stmt) : Bool :=
  match body.getLast? with
  | some (Stmt.expr (Expr.superCall _)) => true
  | _ => false

/-- `SuperCallFinder::find`: if the last statement is a `super(...)`
expression statement, return `None` immediately; otherwise run the visitor
with `mode = None`, `in_complex = false` and return the resulting mode.
Fuel-indexed; the outer `none` is out-of-fuel, `some mode` the result. -/
def SuperCallFinder.find (fuel : Nat) (body : List Stmt) :
    Option (Option SuperFoldingMode) :=
  if isTailSuperStmt body then some none
  else scfVisit fuel false none (.stmtList body)

/-!
`DestructuringVisitor` and the fast-path precheck
(`compat/es2015/destructuring.rs`, `has_destruturing`).
-/

/-- The traversal of `DestructuringVisitor` (fuel-indexed; `none` = out of
fuel): the visitor only overrides `Visit<Pat>` — it visits the children of
the pattern and then sets `found` unless the pattern is an identifier
pattern.  Every other node kind uses the default `visit_children`, so the
traversal descends into nested functions, arrows, and all expressions.  The
result is the final value of `found` starting from `false`. -/
def dvFound (fuel : Nat) (node : Node) : Option Bool :=
  match fuel with
  | 0 => none
  | fuel + 1 =>
    match node with
    | .e (.ident _) => some false
    | .e .thisExpr => some false
    | .e (.lit _) => some false
    | .e (.superCall args) => dvFound fuel (.eosList args)
    | .e (.call callee args) =>
      match dvFound fuel (.e callee) with
      | none => none
      | some a =>
        match dvFound fuel (.eosList args) with
        | none => none
        | some b => some (a || b)
    | .e (.newExpr callee args) =>
      match dvFound fuel (.e callee) with
      | none => none
      | some a =>
        match dvFound fuel (.eosList args) with
        | none => none
        | some b => some (a || b)
    | .e (.member obj prop _) =>
      match dvFound fuel (.e obj) with
      | none => none
      | some a =>
        match dvFound fuel (.e prop) with
        | none => none
        | some b => some (a || b)
    | .e (.assign left right) =>
      match dvFound fuel (.poe left) with
      | none => none
      | some a =>
        match dvFound fuel (.e right) with
        | none => none
        | some b => some (a || b)
    | .e (.cond t c a) =>
      match dvFound fuel (.e t) with
      | none => none
      | some x =>
        match dvFound fuel (.e c) with
        | none => none
        | some y =>
          match dvFound fuel (.e a) with
          | none => none
          | some z => some (x || y || z)
    | .e (.bin _ l r) =>
      match dvFound fuel (.e l) with
      | none => none
      | some a =>
        match dvFound fuel (.e r) with
        | none => none
        | some b => some (a || b)
    | .e (.unary _ a) => dvFound fuel (.e a)
    | .e (.seq es) => dvFound fuel (.exprList es)
    | .e (.arrow params body) =>
      match dvFound fuel (.patList params) with
      | none => none
      | some a =>
        match dvFound fuel (.stmtList body) with
        | none => none
        | some b => some (a || b)
    | .e (.fnExpr params body) =>
      match dvFound fuel (.patList params) with
      | none => none
      | some a =>
        match dvFound fuel (.stmtList body) with
        | none => none
        | some b => some (a || b)
    | .e (.array elems) => dvFound fuel (.optEosList elems)
    | .exprList [] => some false
    | .exprList (e :: rest) =>
      match dvFound fuel (.e e) with
      | none => none
      | some a =>
        match dvFound fuel (.exprList rest) with
        | none => none
        | some b => some (a || b)
    | .eos x => dvFound fuel (.e x.expr)
    | .eosList [] => some false
    | .eosList (a :: rest) =>
      match dvFound fuel (.eos a) with
      | none => none
      | some x =>
        match dvFound fuel (.eosList rest) with
        | none => none
        | some y => some (x || y)
    | .optEosList [] => some false
    | .optEosList (a :: rest) =>
      match (match a with
             | none => some false
             | some x => dvFound fuel (.eos x)) with
      | none => none
      | some x =>
        match dvFound fuel (.optEosList rest) with
        | none => none
        | some y => some (x || y)
    | .p (.ident _) => some false
    | .p (.array elems) =>
      match dvFound fuel (.optPatList elems) with
      | none => none
      | some _ => some true
    | .p (.object props) =>
      match dvFound fuel (.oppList props) with
      | none => none
      | some _ => some true
    | .p (.assign l r) =>
      match dvFound fuel (.p l) with
      | none => none
      | some _ =>
        match dvFound fuel (.e r) with
        | none => none
        | some _ => some true
    | .p (.rest a) =>
      match dvFound fuel (.p a) with
      | none => none
      | some _ => some true
    | .p (.exprPat e) =>
      match dvFound fuel (.e e) with
      | none => none
      | some _ => some true
    | .patList [] => some false
    | .patList (x :: rest) =>
      match dvFound fuel (.p x) with
      | none => none
      | some a =>
        match dvFound fuel (.patList rest) with
        | none => none
        | some b => some (a || b)
    | .optPatList [] => some false
    | .optPatList (x :: rest) =>
      match (match x with
             | none => some false
             | some y => dvFound fuel (.p y)) with
      | none => none
      | some a =>
        match dvFound fuel (.optPatList rest) with
        | none => none
        | some b => some (a || b)
    | .opp (.keyValue key value) =>
      match dvFound fuel (.pname key) with
      | none => none
      | some a =>
        match dvFound fuel (.p value) with
        | none => none
        | some b => some (a || b)
    | .opp (.assignProp _ value) =>
      match value with
      | none => some false
      | some v => dvFound fuel (.e v)
    | .oppList [] => some false
    | .oppList (x :: rest) =>
      match dvFound fuel (.opp x) with
      | none => none
      | some a =>
        match dvFound fuel (.oppList rest) with
        | none => none
        | some b => some (a || b)
    | .pname (.identKey _) => some false
    | .pname (.strKey _) => some false
    | .pname (.numKey _) => some false
    | .pname (.computed e) => dvFound fuel (.e e)
    | .poe (.pat x) => dvFound fuel (.p x)
    | .poe (.expr x) => dvFound fuel (.e x)
    | .s (.expr e) => dvFound fuel (.e e)
    | .s (.decl d) => dvFound fuel (.vd d)
    | .s (.ifStmt t c a) =>
      match dvFound fuel (.e t) with
      | none => none
      | some x =>
        match dvFound fuel (.s c) with
        | none => none
        | some y =>
          match (match a with
                 | none => some false
                 | some s2 => dvFound fuel (.s s2)) with
          | none => none
          | some z => some (x || y || z)
    | .s (.ret arg) =>
      match arg with
      | none => some false
      | some e => dvFound fuel (.e e)
    | .s (.block ss) => dvFound fuel (.stmtList ss)
    | .stmtList [] => some false
    | .stmtList (x :: rest) =>
      match dvFound fuel (.s x) with
      | none => none
      | some a =>
        match dvFound fuel (.stmtList rest) with
        | none => none
        | some b => some (a || b)
    | .vd (.mk _ ds) => dvFound fuel (.vdrList ds)
    | .vdr (.mk name init) =>
      match dvFound fuel (.p name) with
      | none => none
      | some a =>
        match (match init with
               | none => some false
               | some e => dvFound fuel (.e e)) with
        | none => none
        | some b => some (a || b)
    | .vdrList [] => some false
    | .vdrList (x :: rest) =>
      match dvFound fuel (.vdr x) with
      | none => none
      | some a =>
        match dvFound fuel (.vdrList rest) with
        | none => none
        | some b => some (a || b)

/-- Whether every pattern node occurring anywhere in a node (including
inside nested functions, arrows, and expressions) is an identifier pattern.
Fuel-indexed, with the same recursion structure as `dvFound`. -/
def allPatsIdent (fuel : Nat) (node : Node) : Option Bool :=
  match fuel with
  | 0 => none
  | fuel + 1 =>
    match node with
    | .e (.ident _) => some true
    | .e .thisExpr => some true
    | .e (.lit _) => some true
    | .e (.superCall args) => allPatsIdent fuel (.eosList args)
    | .e (.call callee args) =>
      match allPatsIdent fuel (.e callee) with
      | none => none
      | some a =>
        match allPatsIdent fuel (.eosList args) with
        | none => none
        | some b => some (a && b)
    | .e (.newExpr callee args) =>
      match allPatsIdent fuel (.e callee) with
      | none => none
      | some a =>
        match allPatsIdent fuel (.eosList args) with
        | none => none
        | some b => some (a && b)
    | .e (.member obj prop _) =>
      match allPatsIdent fuel (.e obj) with
      | none => none
      | some a =>
        match allPatsIdent fuel (.e prop) with
        | none => none
        | some b => some (a && b)
    | .e (.assign left right) =>
      match allPatsIdent fuel (.poe left) with
      | none => none
      | some a =>
        match allPatsIdent fuel (.e right) with
        | none => none
        | some b => some (a && b)
    | .e (.cond t c a) =>
      match allPatsIdent fuel (.e t) with
      | none => none
      | some x =>
        match allPatsIdent fuel (.e c) with
        | none => none
        | some y =>
          match allPatsIdent fuel (.e a) with
          | none => none
          | some z => some (x && y && z)
    | .e (.bin _ l r) =>
      match allPatsIdent fuel (.e l) with
      | none => none
      | some a =>
        match allPatsIdent fuel (.e r) with
        | none => none
        | some b => some (a && b)
    | .e (.unary _ a) => allPatsIdent fuel (.e a)
    | .e (.seq es) => allPatsIdent fuel (.exprList es)
    | .e (.arrow params body) =>
      match allPatsIdent fuel (.patList params) with
      | none => none
      | some a =>
        match allPatsIdent fuel (.stmtList body) with
        | none => none
        | some b => some (a && b)
    | .e (.fnExpr params body) =>
      match allPatsIdent fuel (.patList params) with
      | none => none
      | some a =>
        match allPatsIdent fuel (.stmtList body) with
        | none => none
        | some b => some (a && b)
    | .e (.array elems) => allPatsIdent fuel (.optEosList elems)
    | .exprList [] => some true
    | .exprList (e :: rest) =>
      match allPatsIdent fuel (.e e) with
      | none => none
      | some a =>
        match allPatsIdent fuel (.exprList rest) with
        | none => none
        | some b => some (a && b)
    | .eos x => allPatsIdent fuel (.e x.expr)
    | .eosList [] => some true
    | .eosList (a :: rest) =>
      match allPatsIdent fuel (.eos a) with
      | none => none
      | some x =>
        match allPatsIdent fuel (.eosList rest) with
        | none => none
        | some y => some (x && y)
    | .optEosList [] => some true
    | .optEosList (a :: rest) =>
      match (match a with
             | none => some true
             | some x => allPatsIdent fuel (.eos x)) with
      | none => none
      | some x =>
        match allPatsIdent fuel (.optEosList rest) with
        | none => none
        | some y => some (x && y)
    | .p (.ident _) => some true
    | .p (.array elems) =>
      match allPatsIdent fuel (.optPatList elems) with
      | none => none
      | some _ => some false
    | .p (.object props) =>
      match allPatsIdent fuel (.oppList props) with
      | none => none
      | some _ => some false
    | .p (.assign l r) =>
      match allPatsIdent fuel (.p l) with
      | none => none
      | some _ =>
        match allPatsIdent fuel (.e r) with
        | none => none
        | some _ => some false
    | .p (.rest a) =>
      match allPatsIdent fuel (.p a) with
      | none => none
      | some _ => some false
    | .p (.exprPat e) =>
      match allPatsIdent fuel (.e e) with
      | none => none
      | some _ => some false
    | .patList [] => some true
    | .patList (x :: rest) =>
      match allPatsIdent fuel (.p x) with
      | none => none
      | some a =>
        match allPatsIdent fuel (.patList rest) with
        | none => none
        | some b => some (a && b)
    | .optPatList [] => some true
    | .optPatList (x :: rest) =>
      match (match x with
             | none => some true
             | some y => allPatsIdent fuel (.p y)) with
      | none => none
      | some a =>
        match allPatsIdent fuel (.optPatList rest) with
        | none => none
        | some b => some (a && b)
    | .opp (.keyValue key value) =>
      match allPatsIdent fuel (.pname key) with
      | none => none
      | some a =>
        match allPatsIdent fuel (.p value) with
        | none => none
        | some b => some (a && b)
    | .opp (.assignProp _ value) =>
      match value with
      | none => some true
      | some v => allPatsIdent fuel (.e v)
    | .oppList [] => some true
    | .oppList (x :: rest) =>
      match allPatsIdent fuel (.opp x) with
      | none => none
      | some a =>
        match allPatsIdent fuel (.oppList rest) with
        | none => none
        | some b => some (a && b)
    | .pname (.identKey _) => some true
    | .pname (.strKey _) => some true
    | .pname (.numKey _) => some true
    | .pname (.computed e) => allPatsIdent fuel (.e e)
    | .poe (.pat x) => allPatsIdent fuel (.p x)
    | .poe (.expr x) => allPatsIdent fuel (.e x)
    | .s (.expr e) => allPatsIdent fuel (.e e)
    | .s (.decl d) => allPatsIdent fuel (.vd d)
    | .s (.ifStmt t c a) =>
      match allPatsIdent fuel (.e t) with
      | none => none
      | some x =>
        match allPatsIdent fuel (.s c) with
        | none => none
        | some y =>
          match (match a with
                 | none => some true
                 | some s2 => allPatsIdent fuel (.s s2)) with
          | none => none
          | some z => some (x && y && z)
    | .s (.ret arg) =>
      match arg with
      | none => some true
      | some e => allPatsIdent fuel (.e e)
    | .s (.block ss) => allPatsIdent fuel (.stmtList ss)
    | .stmtList [] => some true
    | .stmtList (x :: rest) =>
      match allPatsIdent fuel (.s x) with
      | none => none
      | some a =>
        match allPatsIdent fuel (.stmtList rest) with
        | none => none
        | some b => some (a && b)
    | .vd (.mk _ ds) => allPatsIdent fuel (.vdrList ds)
    | .vdr (.mk name init) =>
      match allPatsIdent fuel (.p name) with
      | none => none
      | some a =>
        match (match init with
               | none => some true
               | some e => allPatsIdent fuel (.e e)) with
        | none => none
        | some b => some (a && b)
    | .vdrList [] => some true
    | .vdrList (x :: rest) =>
      match allPatsIdent fuel (.vdr x) with
      | none => none
      | some a =>
        match allPatsIdent fuel (.vdrList rest) with
        | none => none
        | some b => some (a && b)

/-!
The destructuring pass (`compat/es2015/destructuring.rs`).  The two folders
`Destructuring` (statement-list folder, fast path, hoisting of the
`AssignFolder`'s `vars`) and `AssignFolder` (per-statement folder) are
embedded as fuel-indexed functions threading their state; `none` is
out-of-fuel or a panicking path (`unreachable!` / `unimplemented!` /
a failed `assert!`/`unwrap`).  The hygiene mark allocator is threaded as a
`Nat` counter.
-/

/-- `Config { loose: bool }`. -/
structure Config where
  loose : Bool
deriving DecidableEq, Repr

/-- Modelled from the spec: the helper-injection collaborator provides
runtime helpers by string name (`helper!(...)`); the pass emits an
identifier referring to the helper. -/
def helperIdent (name : String) : Expr := Expr.ident ⟨name, 0⟩

/-- Modelled from the spec: `private_ident!(sym)` — a new identifier with
the given symbol and a fresh hygiene mark applied, hence a fresh non-root
context; marks are allocated monotonically from the threaded counter. -/
def private_ident (sym : String) (mark : Nat) : Ident × Nat :=
  (⟨sym, mark + 1⟩, mark + 1)

/-- Modelled from the spec: `alias_ident_for(expr, default)` from the
transforms utility module (not among the sources here).  Per the spec's
concrete scenarios, the temporary for a property access `_ref.a` is named
`_a` (scenario 8) while the alias for other initializers is `_` followed by
the default (`_ref`, scenario 7); the alias carries a fresh mark. -/
def alias_ident_for (e : Expr) (default : String) (mark : Nat) : Ident × Nat :=
  let sym :=
    match e with
    | .member _ (.ident p) _ => "_" ++ p.sym
    | _ => "_" ++ default
  (⟨sym, mark + 1⟩, mark + 1)

/-- Modelled from the spec: `alias_if_required(expr, default)` — aliasing
"is elided when the RHS is already a simple identifier": an identifier
expression is returned as-is with `false`, any other expression gets an
alias identifier and `true`. -/
def alias_if_required (e : Expr) (default : String) (mark : Nat) :
    (Ident × Bool) × Nat :=
  match e with
  | .ident i => ((i, false), mark)
  | _ =>
    let (id, mark') := alias_ident_for e default mark
    ((id, true), mark')

/-- `can_be_null` (fuel-indexed): the null-possibility classification of an
expression.  `Lit::Null`, `this`, identifiers, member access, calls
(including `super` calls), `new`, unary and binary expressions can be null;
other literals, array/arrow/function literals cannot; sequence expressions
defer to their last expression (`true` when empty), assignments to their
right side, conditionals to the disjunction over both branches. -/
def can_be_null (fuel : Nat) (e : Expr) : Option Bool :=
  match fuel with
  | 0 => none
  | fuel + 1 =>
    match e with
    | .lit .null => some true
    | .thisExpr => some true
    | .ident _ => some true
    | .member _ _ _ => some true
    | .superCall _ => some true
    | .call _ _ => some true
    | .newExpr _ _ => some true
    | .lit _ => some false
    | .array _ => some false
    | .arrow _ _ => some false
    | .fnExpr _ _ => some false
    | .seq es =>
      match es.getLast? with
      | none => some true
      | some last => can_be_null fuel last
    | .assign _ right => can_be_null fuel right
    | .cond _ cons alt =>
      match can_be_null fuel cons with
      | none => none
      | some a =>
        match can_be_null fuel alt with
        | none => none
        | some b => some (a || b)
    | .unary _ _ => some true
    | .bin _ _ _ => some true

mutual
/-- Modelled from the spec: `is_literal` from the transforms utility module
— whether an expression is statically a literal (a literal token, or an
array literal whose present elements are all non-spread literals); used for
the "if `init` is a literal array" fast paths. -/
def is_literal (fuel : Nat) (e : Expr) : Option Bool :=
  match fuel with
  | 0 => none
  | fuel + 1 =>
    match e with
    | .lit _ => some true
    | .array elems => is_literal_elems fuel elems
    | _ => some false

termination_by structural fuel

/-- The element loop of `is_literal` over an array literal. -/
def is_literal_elems (fuel : Nat) (elems : List (Option ExprOrSpread)) :
    Option Bool :=
  match fuel with
  | 0 => none
  | fuel + 1 =>
    match elems with
    | [] => some true
    | none :: rest => is_literal_elems fuel rest
    | some (.mk true _) :: _ => some false
    | some (.mk false e) :: rest =>
      match is_literal fuel e with
      | none => none
      | some a =>
        match is_literal_elems fuel rest with
        | none => none
        | some b => some (a && b)
termination_by structural fuel

end

/-- Modelled from the spec: `has_rest_pat` from the transforms utility
module — whether some element of an array pattern is a rest pattern. -/
def has_rest_pat (elems : List (Option Pat)) : Bool :=
  elems.any fun p =>
    match p with
    | some (.rest _) => true
    | _ => false

/-- Modelled from the spec: `prop_name_to_expr` from the transforms utility
module — an identifier key becomes an identifier expression, string/number
keys become literals, a computed key is its expression. -/
def prop_name_to_expr : PropName → Expr
  | .identKey s => .ident ⟨s, 0⟩
  | .strKey s => .lit (.str s)
  | .numKey n => .lit (.num n)
  | .computed e => e

/-- Modelled from the spec: `undefined(span)` from the transforms utility
module — the expression `void 0`. -/
def undefinedExpr : Expr := .unary .voidOp (.lit (.num 0))

/-- `make_ref_idx_expr`: `ref_ident.computed_member(i as f64)`, i.e.
`_ref[i]`. -/
def make_ref_idx_expr (ref_ident : Ident) (i : Nat) : Expr :=
  .member (.ident ref_ident) (.lit (.num i)) true

/-- `make_ref_prop_expr`: member access `_ref.prop`, forced computed when
the property expression is a numeric or string literal. -/
def make_ref_prop_expr (ref_ident : Ident) (prop : Expr) (computed : Bool) :
    Expr :=
  let computed := computed ||
    (match prop with
     | .lit (.num _) => true
     | .lit (.str _) => true
     | _ => false)
  .member (.ident ref_ident) prop computed

/-- `make_cond_expr`: `tmp === void 0 ? def_value : tmp`. -/
def make_cond_expr (tmp : Ident) (def_value : Expr) : Expr :=
  .cond (.bin .eqeqeq (.ident tmp) (.unary .voidOp (.lit (.num 0))))
    def_value (.ident tmp)

/-- `std::usize::MAX`, the sentinel element count marking the presence of a
rest element. -/
def usizeMax : Nat := 2 ^ 64 - 1

/-- `make_ref_ident_for_array(c, decls, init, elem_cnt)`: when the
initializer is a plain identifier and no element count is requested, the
identifier itself is returned and nothing is pushed; otherwise choose the
reference identifier (in loose mode `alias_if_required`, otherwise always a
fresh alias via `alias_ident_for`, or `private_ident!("ref")` when there is
no initializer) and, when aliased, push `ref = init` — wrapping the
initializer in `toArray(init)` when the element count is `usize::MAX`, in
`slicedToArray(init, n)` for a finite requested count, and leaving it alone
in loose mode, when it is an array literal, or when no count is
requested. -/
def make_ref_ident_for_array (c : Config) (decls : List VarDeclarator)
    (init : Option Expr) (elem_cnt : Option Nat) (mark : Nat) :
    Ident × List VarDeclarator × Nat :=
  match init, elem_cnt with
  | some (.ident i), none => (i, decls, mark)
  | init, elem_cnt =>
    let ((ref_ident, aliased), mark) :=
      if c.loose then
        match init with
        | some i => alias_if_required i "ref" mark
        | none =>
          let (id, mark) := private_ident "ref" mark
          ((id, true), mark)
      else
        match init with
        | some i =>
          let (id, mark) := alias_ident_for i "ref" mark
          ((id, true), mark)
        | none =>
          let (id, mark) := private_ident "ref" mark
          ((id, true), mark)
    let decls :=
      if aliased then
        decls ++ [VarDeclarator.mk (Pat.ident ref_ident)
          (init.map fun v =>
            if c.loose || (match v with | .array _ => true | _ => false) then v
            else
              match elem_cnt with
              | none => v
              | some cnt =>
                if cnt = usizeMax then
                  .call (helperIdent "toArray") [.mk false v]
                else
                  .call (helperIdent "slicedToArray")
                    [.mk false v, .mk false (.lit (.num cnt))])]
      else decls
    (ref_ident, decls, mark)

/-- `make_ref_ident(c, decls, init)` =
`make_ref_ident_for_array(c, decls, init, None)`. -/
def make_ref_ident (c : Config) (decls : List VarDeclarator)
    (init : Option Expr) (mark : Nat) : Ident × List VarDeclarator × Nat :=
  make_ref_ident_for_array c decls init none mark

/-- The state of an `AssignFolder`
(`struct AssignFolder { c, exporting, vars, ignore_return_value }`),
together with the hygiene mark counter. -/
structure AssignFolder where
  c : Config
  exporting : Bool
  vars : List VarDeclarator
  ignore_return_value : Bool
  mark : Nat

/-- The element loop of the array-literal fast path in assignment position
(`Fold<Expr> for AssignFolder`, array pattern with literal right-hand side
and ignored return value): element-wise `p_i = e_i` assignments, `undefined`
for exhausted or hole elements, the remaining literal elements for a rest
pattern.  The `Option`-wrapped remainder models the source's
`Option<IntoIter>`: `none` after a rest element has consumed it (a second
rest element or a pattern after a rest panics). -/
def afLitAssignLoop (fuel : Nat) (pats : List (Option Pat))
    (arrRem : Option (List (Option ExprOrSpread))) : Option (List Expr) :=
  match fuel with
  | 0 => none
  | fuel + 1 =>
    match pats with
    | [] => some []
    | none :: rest => afLitAssignLoop fuel rest arrRem
    | some (.rest arg) :: rest =>
      match arrRem with
      | none => none
      | some remaining =>
        match afLitAssignLoop fuel rest none with
        | none => none
        | some tailExprs =>
          some (Expr.assign (.pat arg) (.array remaining) :: tailExprs)
    | some p :: rest =>
      match arrRem with
      | none => none
      | some remaining =>
        let e := remaining.head?.join
        let remaining' := remaining.tail
        let right :=
          match e with
          | some eos => eos.expr
          | none => undefinedExpr
        match afLitAssignLoop fuel rest (some remaining') with
        | none => none
        | some tailExprs => some (Expr.assign (.pat p) right :: tailExprs)

/-- The parameter loop of `Destructuring::fold_fn_like`: identifier
parameters are kept; array/object/assignment patterns are replaced by a
fresh `ref` identifier with a declarator `pat = ref` collected for the
prologue; any other parameter kind falls into the `_ => {}` arm and is
dropped. -/
def dFnParams (params : List Pat) (mark : Nat) :
    List Pat × List VarDeclarator × Nat :=
  match params with
  | [] => ([], [], mark)
  | pat :: rest =>
    match pat with
    | .ident _ =>
      let (ps, ds, mark) := dFnParams rest mark
      (pat :: ps, ds, mark)
    | .array _ =>
      let (refId, mark) := private_ident "ref" mark
      let (ps, ds, mark) := dFnParams rest mark
      (Pat.ident refId :: ps, VarDeclarator.mk pat (some (.ident refId)) :: ds, mark)
    | .object _ =>
      let (refId, mark) := private_ident "ref" mark
      let (ps, ds, mark) := dFnParams rest mark
      (Pat.ident refId :: ps, VarDeclarator.mk pat (some (.ident refId)) :: ds, mark)
    | .assign _ _ =>
      let (refId, mark) := private_ident "ref" mark
      let (ps, ds, mark) := dFnParams rest mark
      (Pat.ident refId :: ps, VarDeclarator.mk pat (some (.ident refId)) :: ds, mark)
    | _ => dFnParams rest mark

/-- The operations of the `AssignFolder`: its `Fold<_>` entry points
(statements, expressions, declarator lists), `fold_var_decl` with its
per-pattern expansion loops, and the default `fold_children` traversals.
The `decls` arguments are the `&mut Vec<VarDeclarator>` accumulators of the
source. -/
inductive AfOp where
  | stmt (s : Stmt)
  | stmtChildren (s : Stmt)
  | stmts (ss : List Stmt)
  | expr (e : Expr)
  | exprChildren (e : Expr)
  | arrayAssignGeneral (elems : List (Option Pat)) (right : Expr)
  | arrayAssignLoop (refId : Ident) (i : Nat) (elems : List (Option Pat))
  | objAssignLoop (refId : Ident) (props : List ObjectPatProp)
  | exprList (es : List Expr)
  | optExpr (o : Option Expr)
  | eos (x : ExprOrSpread)
  | eosList (xs : List ExprOrSpread)
  | optEosList (xs : List (Option ExprOrSpread))
  | pat (p : Pat)
  | patList (ps : List Pat)
  | optPatList (ps : List (Option Pat))
  | opp (x : ObjectPatProp)
  | oppList (xs : List ObjectPatProp)
  | propName (k : PropName)
  | patOrExpr (x : PatOrExpr)
  | vdrChildren (d : VarDeclarator)
  | vdrsChildren (ds : List VarDeclarator)
  | varDeclarators (ds : List VarDeclarator)
  | varDeclLoop (decls : List VarDeclarator) (ds : List VarDeclarator)
  | foldVarDecl (decls : List VarDeclarator) (d : VarDeclarator)
  | litDeclLoop (decls : List VarDeclarator) (pats : List (Option Pat))
      (arrRem : Option (List (Option ExprOrSpread)))
  | arrayGeneralDecl (decls : List VarDeclarator) (elems : List (Option Pat))
      (init0 : Expr)
  | arrayDeclLoop (decls : List VarDeclarator) (refId : Ident) (i : Nat)
      (elems : List (Option Pat))
  | objDeclLoop (decls : List VarDeclarator) (refId : Ident)
      (props : List ObjectPatProp)

/-- The operations of the `Destructuring` folder: the statement-list fold
(`Fold<Vec<T>>`) with its two phases, the expression dispatch with the
function-like rewriting, and the default `fold_children` traversals. -/
inductive DOp where
  | stmts (ss : List Stmt)
  | stmtsChildren (ss : List Stmt)
  | stmtChildren (s : Stmt)
  | stmtsBuf (ss : List Stmt)
  | expr (e : Expr)
  | fnLike (params : List Pat) (body : List Stmt)
  | exprList (es : List Expr)
  | optExpr (o : Option Expr)
  | eos (x : ExprOrSpread)
  | eosList (xs : List ExprOrSpread)
  | optEosList (xs : List (Option ExprOrSpread))
  | pat (p : Pat)
  | patList (ps : List Pat)
  | optPatList (ps : List (Option Pat))
  | opp (x : ObjectPatProp)
  | oppList (xs : List ObjectPatProp)
  | propName (k : PropName)
  | patOrExpr (x : PatOrExpr)
  | vdrsChildren (ds : List VarDeclarator)

/-- A pending fold invocation: either an `AssignFolder` operation with the
folder's state, or a `Destructuring` operation with its configuration and
the hygiene mark counter. -/
inductive FoldIn where
  | af (af : AssignFolder) (op : AfOp)
  | d (c : Config) (mark : Nat) (op : DOp)

/-- A folded value (one variant per node shape an operation returns). -/
inductive FoldVal where
  | s (x : Stmt)
  | stmtList (xs : List Stmt)
  | e (x : Expr)
  | exprList (xs : List Expr)
  | optExpr (x : Option Expr)
  | eos (x : ExprOrSpread)
  | eosList (xs : List ExprOrSpread)
  | optEosList (xs : List (Option ExprOrSpread))
  | p (x : Pat)
  | patList (xs : List Pat)
  | optPatList (xs : List (Option Pat))
  | opp (x : ObjectPatProp)
  | oppList (xs : List ObjectPatProp)
  | pname (x : PropName)
  | poe (x : PatOrExpr)
  | vdr (x : VarDeclarator)
  | vdrList (xs : List VarDeclarator)
  | fnLike (params : List Pat) (body : List Stmt)

/-- The result of a fold invocation: the folded value together with the
updated folder state (`AssignFolder` state for `af` operations, the mark
counter for `d` operations). -/
inductive FoldRes where
  | af (v : FoldVal) (af : AssignFolder)
  | d (v : FoldVal) (mark : Nat)

/-- The destructuring pass: a single fuel-indexed interpreter for the
mutually recursive folds of `AssignFolder` and `Destructuring`
(`none` = out of fuel or a panicking path).  One entry point per operation,
dispatching exactly as the source does:

`AssignFolder` (`af` operations):
* `stmt` — `Fold<Stmt>`: an expression statement sets `ignore_return_value`
  before folding its expression (the fold take()s it, matching the source's
  `assert_eq!(self.ignore_return_value, None)` afterwards); every other
  statement goes through `fold_children` (`stmtChildren`);
* `expr` — `Fold<Expr>`: take `ignore_return_value`; send function
  expressions to a fresh `Destructuring` folder (the iife case; the source
  also lists `Expr::Object`, object literals are not in the fragment) and
  everything else through `fold_children`; then rewrite a folded assignment
  `pat = rhs`: an expression pattern becomes an expression left-hand side,
  an identifier pattern stays, array and object patterns expand into
  sequence expressions (`arrayAssignGeneral`/`arrayAssignLoop`/
  `objAssignLoop`, with the array-literal fast path when the right-hand
  side is a literal and the value is ignored), assignment and rest patterns
  are `unimplemented!`;
* `varDeclarators` — `Fold<Vec<VarDeclarator>>`: fold the children, return
  unchanged when no declarator has a non-identifier pattern, otherwise run
  `fold_var_decl` over each declarator (`varDeclLoop`);
* `foldVarDecl` — `fold_var_decl`: identifier patterns are pushed
  unchanged; rest patterns are `unreachable!`; array patterns expand
  element-wise for a literal array initializer with matching count or a
  rest element (`litDeclLoop`), and otherwise allocate a reference
  (`arrayGeneralDecl`, into `vars` when exporting) and bind each element to
  `ref[i]` / `ref.slice(i)` (`arrayDeclLoop`), re-folding new declarators;
  an empty object pattern aliases the initializer if required and emits the
  `ref !== null ? ref : throw(new TypeError("Cannot destructure undefined"))`
  guard; a non-empty object pattern allocates a reference (plus a second
  alias when the initializer can be null) and expands each property
  (`objDeclLoop`); an assignment pattern reuses a marked identifier
  initializer or binds a fresh `tmp`, then binds the left side to
  `tmp === void 0 ? default : tmp`; an expression pattern is
  `unimplemented!`;
* the remaining `af` operations are the default `fold_children`
  traversals.

`Destructuring` (`d` operations):
* `stmts` — `Fold<Vec<T>>` over a statement list: the fast path returns the
  list unchanged when the precheck visitor finds no destructuring pattern;
  otherwise fold the children of every statement (`stmtsChildren`,
  recursing into nested statement lists and functions), then run a fresh
  `AssignFolder` over each statement (`stmtsBuf`), prepending a hoisted
  `var` declaration whenever the folder accumulated temporaries in `vars`;
* `expr` — function and arrow expressions go through the function-like
  rewriting (`fnLike`: `fold_fn_like`'s parameter loop, then — modelled
  from the spec, the `impl_fold_fn!` glue not being among the sources —
  the prologue-plus-body list is processed recursively by the
  statement-list fold); everything else is `fold_children`;
* the remaining `d` operations are the default `fold_children`
  traversals. -/
def foldRun (fuel : Nat) (inp : FoldIn) : Option FoldRes :=
  match fuel with
  | 0 => none
  | fuel + 1 =>
      match inp with
      | .d c mark (.stmts ss) =>
        match dvFound (fuel + 1) (.stmtList ss) with
        | none => none
        | some false => some (.d (.stmtList ss) mark)
        | some true =>
          match foldRun fuel (.d c mark (.stmtsChildren ss)) with
          | some (.d (.stmtList ss1) mark) =>
            foldRun fuel (.d c mark (.stmtsBuf ss1))
          | _ => none
      | .af af (.stmt s) =>
        match s with
        | .expr e =>
          match foldRun fuel (.af { af with ignore_return_value := true } (.expr e)) with
          | some (.af (.e e1) af) => some (.af (.s (.expr e1)) af)
          | _ => none
        | _ => foldRun fuel (.af af (.stmtChildren s))
      | .af af (.stmtChildren s) =>
        match s with
        | .expr e =>
          match foldRun fuel (.af af (.expr e)) with
          | some (.af (.e e1) af) => some (.af (.s (.expr e1)) af)
          | _ => none
        | .decl (.mk kind ds) =>
          match foldRun fuel (.af af (.varDeclarators ds)) with
          | some (.af (.vdrList ds1) af) => some (.af (.s (.decl (.mk kind ds1))) af)
          | _ => none
        | .ifStmt t c a =>
          match foldRun fuel (.af af (.expr t)) with
          | some (.af (.e t1) af) =>
            match foldRun fuel (.af af (.stmt c)) with
            | some (.af (.s c1) af) =>
              match a with
              | none => some (.af (.s (.ifStmt t1 c1 none)) af)
              | some s2 =>
                match foldRun fuel (.af af (.stmt s2)) with
                | some (.af (.s s3) af) => some (.af (.s (.ifStmt t1 c1 (some s3))) af)
                | _ => none
            | _ => none
          | _ => none
        | .ret arg =>
          match foldRun fuel (.af af (.optExpr arg)) with
          | some (.af (.optExpr a1) af) => some (.af (.s (.ret a1)) af)
          | _ => none
        | .block ss =>
          match foldRun fuel (.af af (.stmts ss)) with
          | some (.af (.stmtList ss1) af) => some (.af (.s (.block ss1)) af)
          | _ => none
      | .af af (.stmts ss) =>
        match ss with
        | [] => some (.af (.stmtList []) af)
        | s :: rest =>
          match foldRun fuel (.af af (.stmt s)) with
          | some (.af (.s s1) af) =>
            match foldRun fuel (.af af (.stmts rest)) with
            | some (.af (.stmtList rest1) af) => some (.af (.stmtList (s1 :: rest1)) af)
            | _ => none
          | _ => none
      | .af af (.expr e) =>
        let ignore_return_value := af.ignore_return_value
        let af := { af with ignore_return_value := false }
        match ((match e with
               | .fnExpr _ _ =>
                 match foldRun fuel (.d af.c af.mark (.expr e)) with
                 | some (.d (.e e1) mark) => some (.af (.e e1) { af with mark := mark })
                 | _ => none
               | _ => foldRun fuel (.af af (.exprChildren e))) : Option FoldRes) with
        | some (.af (.e e1) af) =>
          (match e1 with
           | .assign (.pat p) right =>
             match p with
             | .exprPat ex => some (.af (.e (.assign (.expr ex) right)) af)
             | .ident _ => some (.af (.e (.assign (.pat p) right)) af)
             | .array elems =>
               match is_literal fuel right with
               | none => none
               | some islit =>
                 match right with
                 | .array arrElems =>
                   if islit && ignore_return_value &&
                       ((elems.length == arrElems.length) || has_rest_pat elems) then
                     match afLitAssignLoop fuel elems (some arrElems) with
                     | none => none
                     | some exprs => some (.af (.e (.seq exprs)) af)
                   else foldRun fuel (.af af (.arrayAssignGeneral elems (.array arrElems)))
                 | _ => foldRun fuel (.af af (.arrayAssignGeneral elems right))
             | .object props =>
               let (refId, vars, mark) := make_ref_ident af.c af.vars none af.mark
               let af := { af with vars := vars, mark := mark }
               match foldRun fuel (.af af (.objAssignLoop refId props)) with
               | some (.af (.exprList exprs) af) =>
                 some (.af (.e (.seq (Expr.assign (.pat (.ident refId)) right ::
                   exprs ++ [Expr.ident refId]))) af)
               | _ => none
             | .assign _ _ => none
             | .rest _ => none
           | _ => some (.af (.e e1) af))
        | _ => none
      | .af af (.arrayAssignGeneral elems right) =>
        let cnt := if has_rest_pat elems then usizeMax else elems.length
        let (refId, vars, mark) :=
          make_ref_ident_for_array af.c af.vars none (some cnt) af.mark
        let af := { af with vars := vars, mark := mark }
        match foldRun fuel (.af af (.arrayAssignLoop refId 0 elems)) with
        | some (.af (.exprList exprs) af) =>
          some (.af (.e (.seq (Expr.assign (.pat (.ident refId)) right ::
            exprs ++ [Expr.ident refId]))) af)
        | _ => none
      | .af af (.arrayAssignLoop refId i elems) =>
        match elems with
        | [] => some (.af (.exprList []) af)
        | none :: rest => foldRun fuel (.af af (.arrayAssignLoop refId (i + 1) rest))
        | some (.assign aleft aright) :: rest =>
          let (assignRef, vars, mark) := make_ref_ident af.c af.vars none af.mark
          let af := { af with vars := vars, mark := mark }
          let e1 := Expr.assign (.pat (.ident assignRef))
            (.member (.ident refId) (.lit (.num i)) true)
          match foldRun fuel (.af af
              (.expr (Expr.assign (.pat aleft) (make_cond_expr assignRef aright)))) with
          | some (.af (.e e2) af) =>
            match foldRun fuel (.af af (.arrayAssignLoop refId (i + 1) rest)) with
            | some (.af (.exprList exprs) af) =>
              some (.af (.exprList (e1 :: e2 :: exprs)) af)
            | _ => none
          | _ => none
        | some (.rest arg) :: rest =>
          match foldRun fuel (.af af (.expr (Expr.assign (.pat arg)
              (.call (.member (.ident refId) (.ident ⟨"slice", 0⟩) false)
                [.mk false (.lit (.num i))])))) with
          | some (.af (.e e1) af) =>
            match foldRun fuel (.af af (.arrayAssignLoop refId (i + 1) rest)) with
            | some (.af (.exprList exprs) af) => some (.af (.exprList (e1 :: exprs)) af)
            | _ => none
          | _ => none
        | some p :: rest =>
          match foldRun fuel (.af af
              (.expr (Expr.assign (.pat p) (make_ref_idx_expr refId i)))) with
          | some (.af (.e e1) af) =>
            match foldRun fuel (.af af (.arrayAssignLoop refId (i + 1) rest)) with
            | some (.af (.exprList exprs) af) => some (.af (.exprList (e1 :: exprs)) af)
            | _ => none
          | _ => none
      | .af af (.objAssignLoop refId props) =>
        match props with
        | [] => some (.af (.exprList []) af)
        | .keyValue key value :: rest =>
          let computed :=
            match key with
            | .computed _ => true
            | _ => false
          let e1 := Expr.assign (.pat value)
            (make_ref_prop_expr refId (prop_name_to_expr key) computed)
          match foldRun fuel (.af af (.objAssignLoop refId rest)) with
          | some (.af (.exprList exprs) af) => some (.af (.exprList (e1 :: exprs)) af)
          | _ => none
        | .assignProp key (some value) :: rest =>
          let (propId, vars, mark) := make_ref_ident af.c af.vars none af.mark
          let af := { af with vars := vars, mark := mark }
          let e1 := Expr.assign (.pat (.ident propId))
            (make_ref_prop_expr refId (.ident key) false)
          let e2 := Expr.assign (.pat (.ident key)) (make_cond_expr propId value)
          match foldRun fuel (.af af (.objAssignLoop refId rest)) with
          | some (.af (.exprList exprs) af) =>
            some (.af (.exprList (e1 :: e2 :: exprs)) af)
          | _ => none
        | .assignProp key none :: rest =>
          let e1 := Expr.assign (.pat (.ident key))
            (make_ref_prop_expr refId (.ident key) false)
          match foldRun fuel (.af af (.objAssignLoop refId rest)) with
          | some (.af (.exprList exprs) af) => some (.af (.exprList (e1 :: exprs)) af)
          | _ => none
      | .af af (.exprChildren e) =>
        match e with
        | .ident _ => some (.af (.e e) af)
        | .thisExpr => some (.af (.e e) af)
        | .lit _ => some (.af (.e e) af)
        | .superCall args =>
          match foldRun fuel (.af af (.eosList args)) with
          | some (.af (.eosList args1) af) => some (.af (.e (.superCall args1)) af)
          | _ => none
        | .call callee args =>
          match foldRun fuel (.af af (.expr callee)) with
          | some (.af (.e c1) af) =>
            match foldRun fuel (.af af (.eosList args)) with
            | some (.af (.eosList args1) af) => some (.af (.e (.call c1 args1)) af)
            | _ => none
          | _ => none
        | .newExpr callee args =>
          match foldRun fuel (.af af (.expr callee)) with
          | some (.af (.e c1) af) =>
            match foldRun fuel (.af af (.eosList args)) with
            | some (.af (.eosList args1) af) => some (.af (.e (.newExpr c1 args1)) af)
            | _ => none
          | _ => none
        | .member obj prop computed =>
          match foldRun fuel (.af af (.expr obj)) with
          | some (.af (.e o1) af) =>
            match foldRun fuel (.af af (.expr prop)) with
            | some (.af (.e p1) af) => some (.af (.e (.member o1 p1 computed)) af)
            | _ => none
          | _ => none
        | .assign left right =>
          match foldRun fuel (.af af (.patOrExpr left)) with
          | some (.af (.poe l1) af) =>
            match foldRun fuel (.af af (.expr right)) with
            | some (.af (.e r1) af) => some (.af (.e (.assign l1 r1)) af)
            | _ => none
          | _ => none
        | .cond t c a =>
          match foldRun fuel (.af af (.expr t)) with
          | some (.af (.e t1) af) =>
            match foldRun fuel (.af af (.expr c)) with
            | some (.af (.e c1) af) =>
              match foldRun fuel (.af af (.expr a)) with
              | some (.af (.e a1) af) => some (.af (.e (.cond t1 c1 a1)) af)
              | _ => none
            | _ => none
          | _ => none
        | .bin op l r =>
          match foldRun fuel (.af af (.expr l)) with
          | some (.af (.e l1) af) =>
            match foldRun fuel (.af af (.expr r)) with
            | some (.af (.e r1) af) => some (.af (.e (.bin op l1 r1)) af)
            | _ => none
          | _ => none
        | .unary op a =>
          match foldRun fuel (.af af (.expr a)) with
          | some (.af (.e a1) af) => some (.af (.e (.unary op a1)) af)
          | _ => none
        | .seq es =>
          match foldRun fuel (.af af (.exprList es)) with
          | some (.af (.exprList es1) af) => some (.af (.e (.seq es1)) af)
          | _ => none
        | .arrow params body =>
          match foldRun fuel (.af af (.patList params)) with
          | some (.af (.patList ps1) af) =>
            match foldRun fuel (.af af (.stmts body)) with
            | some (.af (.stmtList b1) af) => some (.af (.e (.arrow ps1 b1)) af)
            | _ => none
          | _ => none
        | .fnExpr params body =>
          match foldRun fuel (.af af (.patList params)) with
          | some (.af (.patList ps1) af) =>
            match foldRun fuel (.af af (.stmts body)) with
            | some (.af (.stmtList b1) af) => some (.af (.e (.fnExpr ps1 b1)) af)
            | _ => none
          | _ => none
        | .array elems =>
          match foldRun fuel (.af af (.optEosList elems)) with
          | some (.af (.optEosList es1) af) => some (.af (.e (.array es1)) af)
          | _ => none
      | .af af (.exprList es) =>
        match es with
        | [] => some (.af (.exprList []) af)
        | e :: rest =>
          match foldRun fuel (.af af (.expr e)) with
          | some (.af (.e e1) af) =>
            match foldRun fuel (.af af (.exprList rest)) with
            | some (.af (.exprList rest1) af) => some (.af (.exprList (e1 :: rest1)) af)
            | _ => none
          | _ => none
      | .af af (.optExpr o) =>
        match o with
        | none => some (.af (.optExpr none) af)
        | some e =>
          match foldRun fuel (.af af (.expr e)) with
          | some (.af (.e e1) af) => some (.af (.optExpr (some e1)) af)
          | _ => none
      | .af af (.eos x) =>
        match x with
        | .mk spread e =>
          match foldRun fuel (.af af (.expr e)) with
          | some (.af (.e e1) af) => some (.af (.eos (.mk spread e1)) af)
          | _ => none
      | .af af (.eosList xs) =>
        match xs with
        | [] => some (.af (.eosList []) af)
        | x :: rest =>
          match foldRun fuel (.af af (.eos x)) with
          | some (.af (.eos x1) af) =>
            match foldRun fuel (.af af (.eosList rest)) with
            | some (.af (.eosList rest1) af) => some (.af (.eosList (x1 :: rest1)) af)
            | _ => none
          | _ => none
      | .af af (.optEosList xs) =>
        match xs with
        | [] => some (.af (.optEosList []) af)
        | none :: rest =>
          match foldRun fuel (.af af (.optEosList rest)) with
          | some (.af (.optEosList rest1) af) =>
            some (.af (.optEosList (none :: rest1)) af)
          | _ => none
        | some x :: rest =>
          match foldRun fuel (.af af (.eos x)) with
          | some (.af (.eos x1) af) =>
            match foldRun fuel (.af af (.optEosList rest)) with
            | some (.af (.optEosList rest1) af) =>
              some (.af (.optEosList (some x1 :: rest1)) af)
            | _ => none
          | _ => none
      | .af af (.pat p) =>
        match p with
        | .ident _ => some (.af (.p p) af)
        | .array elems =>
          match foldRun fuel (.af af (.optPatList elems)) with
          | some (.af (.optPatList es1) af) => some (.af (.p (.array es1)) af)
          | _ => none
        | .object props =>
          match foldRun fuel (.af af (.oppList props)) with
          | some (.af (.oppList ps1) af) => some (.af (.p (.object ps1)) af)
          | _ => none
        | .assign l r =>
          match foldRun fuel (.af af (.pat l)) with
          | some (.af (.p l1) af) =>
            match foldRun fuel (.af af (.expr r)) with
            | some (.af (.e r1) af) => some (.af (.p (.assign l1 r1)) af)
            | _ => none
          | _ => none
        | .rest a =>
          match foldRun fuel (.af af (.pat a)) with
          | some (.af (.p a1) af) => some (.af (.p (.rest a1)) af)
          | _ => none
        | .exprPat e =>
          match foldRun fuel (.af af (.expr e)) with
          | some (.af (.e e1) af) => some (.af (.p (.exprPat e1)) af)
          | _ => none
      | .af af (.patList ps) =>
        match ps with
        | [] => some (.af (.patList []) af)
        | p :: rest =>
          match foldRun fuel (.af af (.pat p)) with
          | some (.af (.p p1) af) =>
            match foldRun fuel (.af af (.patList rest)) with
            | some (.af (.patList rest1) af) => some (.af (.patList (p1 :: rest1)) af)
            | _ => none
          | _ => none
      | .af af (.optPatList ps) =>
        match ps with
        | [] => some (.af (.optPatList []) af)
        | none :: rest =>
          match foldRun fuel (.af af (.optPatList rest)) with
          | some (.af (.optPatList rest1) af) =>
            some (.af (.optPatList (none :: rest1)) af)
          | _ => none
        | some p :: rest =>
          match foldRun fuel (.af af (.pat p)) with
          | some (.af (.p p1) af) =>
            match foldRun fuel (.af af (.optPatList rest)) with
            | some (.af (.optPatList rest1) af) =>
              some (.af (.optPatList (some p1 :: rest1)) af)
            | _ => none
          | _ => none
      | .af af (.opp x) =>
        match x with
        | .keyValue key value =>
          match foldRun fuel (.af af (.propName key)) with
          | some (.af (.pname k1) af) =>
            match foldRun fuel (.af af (.pat value)) with
            | some (.af (.p v1) af) => some (.af (.opp (.keyValue k1 v1)) af)
            | _ => none
          | _ => none
        | .assignProp key value =>
          match foldRun fuel (.af af (.optExpr value)) with
          | some (.af (.optExpr v1) af) => some (.af (.opp (.assignProp key v1)) af)
          | _ => none
      | .af af (.oppList xs) =>
        match xs with
        | [] => some (.af (.oppList []) af)
        | x :: rest =>
          match foldRun fuel (.af af (.opp x)) with
          | some (.af (.opp x1) af) =>
            match foldRun fuel (.af af (.oppList rest)) with
            | some (.af (.oppList rest1) af) => some (.af (.oppList (x1 :: rest1)) af)
            | _ => none
          | _ => none
      | .af af (.propName k) =>
        match k with
        | .computed e =>
          match foldRun fuel (.af af (.expr e)) with
          | some (.af (.e e1) af) => some (.af (.pname (.computed e1)) af)
          | _ => none
        | _ => some (.af (.pname k) af)
      | .af af (.patOrExpr x) =>
        match x with
        | .pat p =>
          match foldRun fuel (.af af (.pat p)) with
          | some (.af (.p p1) af) => some (.af (.poe (.pat p1)) af)
          | _ => none
        | .expr e =>
          match foldRun fuel (.af af (.expr e)) with
          | some (.af (.e e1) af) => some (.af (.poe (.expr e1)) af)
          | _ => none
      | .af af (.vdrChildren d) =>
        match d with
        | .mk name init =>
          match foldRun fuel (.af af (.pat name)) with
          | some (.af (.p n1) af) =>
            match foldRun fuel (.af af (.optExpr init)) with
            | some (.af (.optExpr i1) af) => some (.af (.vdr (.mk n1 i1)) af)
            | _ => none
          | _ => none
      | .af af (.vdrsChildren ds) =>
        match ds with
        | [] => some (.af (.vdrList []) af)
        | d :: rest =>
          match foldRun fuel (.af af (.vdrChildren d)) with
          | some (.af (.vdr d1) af) =>
            match foldRun fuel (.af af (.vdrsChildren rest)) with
            | some (.af (.vdrList rest1) af) => some (.af (.vdrList (d1 :: rest1)) af)
            | _ => none
          | _ => none
      | .af af (.varDeclarators ds) =>
        match foldRun fuel (.af af (.vdrsChildren ds)) with
        | some (.af (.vdrList ds1) af) =>
          let is_complex := ds1.any fun d =>
            match d.name with
            | .ident _ => false
            | _ => true
          if !is_complex then some (.af (.vdrList ds1) af)
          else foldRun fuel (.af af (.varDeclLoop [] ds1))
        | _ => none
      | .af af (.varDeclLoop decls ds) =>
        match ds with
        | [] => some (.af (.vdrList decls) af)
        | d :: rest =>
          match foldRun fuel (.af af (.foldVarDecl decls d)) with
          | some (.af (.vdrList decls) af) => foldRun fuel (.af af (.varDeclLoop decls rest))
          | _ => none
      | .af af (.foldVarDecl decls decl) =>
        match decl with
        | .mk name init =>
          match name with
          | .ident _ => some (.af (.vdrList (decls ++ [decl])) af)
          | .rest _ => none
          | .array elems =>
            match init with
            | none => none
            | some init0 =>
              match is_literal fuel init0 with
              | none => none
              | some islit =>
                match init0 with
                | .array arrElems =>
                  if islit && ((elems.length == arrElems.length) || has_rest_pat elems) then
                    foldRun fuel (.af af (.litDeclLoop decls elems (some arrElems)))
                  else foldRun fuel (.af af (.arrayGeneralDecl decls elems (.array arrElems)))
                | _ => foldRun fuel (.af af (.arrayGeneralDecl decls elems init0))
          | .object [] =>
            match init with
            | none => none
            | some init0 =>
              let ((identR, aliased), mark) := alias_if_required init0 "ref" af.mark
              let af := { af with mark := mark }
              let decls :=
                if aliased then
                  decls ++ [VarDeclarator.mk (Pat.ident identR) (some init0)]
                else decls
              let guard := Expr.cond
                (.bin .noteqeq (.ident identR) (.lit .null))
                (.ident identR)
                (.call (helperIdent "throw")
                  [.mk false (.newExpr (.ident ⟨"TypeError", 0⟩)
                    [.mk false (.lit (.str "Cannot destructure undefined"))])])
              some (.af (.vdrList
                (decls ++ [VarDeclarator.mk (Pat.ident identR) (some guard)])) af)
          | .object props =>
            match init with
            | none => none
            | some init0 =>
              match can_be_null fuel init0 with
              | none => none
              | some cn =>
                let (ref1, decls, mark) := make_ref_ident af.c decls (some init0) af.mark
                let af := { af with mark := mark }
                if cn then
                  let (ref2, decls, mark) :=
                    make_ref_ident af.c decls (some (.ident ref1)) af.mark
                  let af := { af with mark := mark }
                  foldRun fuel (.af af (.objDeclLoop decls ref2 props))
                else foldRun fuel (.af af (.objDeclLoop decls ref1 props))
          | .assign left def_value =>
            match init with
            | none => none
            | some init0 =>
              let (tmp, decls, af) :=
                match init0 with
                | .ident i =>
                  if i.ctxt ≠ SyntaxContext.root then (i, decls, af)
                  else
                    let (tmpId, mark) := private_ident "tmp" af.mark
                    (tmpId, decls ++ [VarDeclarator.mk (Pat.ident tmpId) (some init0)],
                      { af with mark := mark })
                | _ =>
                  let (tmpId, mark) := private_ident "tmp" af.mark
                  (tmpId, decls ++ [VarDeclarator.mk (Pat.ident tmpId) (some init0)],
                    { af with mark := mark })
              match foldRun fuel (.af af (.varDeclarators
                  [VarDeclarator.mk left (some (make_cond_expr tmp def_value))])) with
              | some (.af (.vdrList newDecls) af) =>
                some (.af (.vdrList (decls ++ newDecls)) af)
              | _ => none
          | .exprPat _ => none
      | .af af (.litDeclLoop decls pats arrRem) =>
        match pats with
        | [] => some (.af (.vdrList decls) af)
        | none :: rest => foldRun fuel (.af af (.litDeclLoop decls rest arrRem))
        | some (.rest arg) :: rest =>
          match arrRem with
          | none => none
          | some remaining =>
            match foldRun fuel (.af af (.foldVarDecl decls
                (VarDeclarator.mk arg (some (.array remaining))))) with
            | some (.af (.vdrList decls) af) =>
              foldRun fuel (.af af (.litDeclLoop decls rest none))
            | _ => none
        | some p :: rest =>
          match arrRem with
          | none => none
          | some [] => none
          | some (e :: tl) =>
            match foldRun fuel (.af af (.foldVarDecl decls
                (VarDeclarator.mk p (e.map ExprOrSpread.expr)))) with
            | some (.af (.vdrList decls) af) =>
              foldRun fuel (.af af (.litDeclLoop decls rest (some tl)))
            | _ => none
      | .af af (.arrayGeneralDecl decls elems init0) =>
        let cnt := if has_rest_pat elems then usizeMax else elems.length
        if af.exporting then
          let (refId, vars, mark) :=
            make_ref_ident_for_array af.c af.vars (some init0) (some cnt) af.mark
          let af := { af with vars := vars, mark := mark }
          foldRun fuel (.af af (.arrayDeclLoop decls refId 0 elems))
        else
          let (refId, decls, mark) :=
            make_ref_ident_for_array af.c decls (some init0) (some cnt) af.mark
          let af := { af with mark := mark }
          foldRun fuel (.af af (.arrayDeclLoop decls refId 0 elems))
      | .af af (.arrayDeclLoop decls refId i elems) =>
        match elems with
        | [] => some (.af (.vdrList decls) af)
        | none :: rest => foldRun fuel (.af af (.arrayDeclLoop decls refId (i + 1) rest))
        | some (.rest arg) :: rest =>
          let var_decl := VarDeclarator.mk arg
            (some (.call (.member (.ident refId) (.ident ⟨"slice", 0⟩) false)
              [.mk false (.lit (.num i))]))
          match foldRun fuel (.af af (.varDeclarators [var_decl])) with
          | some (.af (.vdrList newDecls) af) =>
            foldRun fuel (.af af (.arrayDeclLoop (decls ++ newDecls) refId (i + 1) rest))
          | _ => none
        | some p :: rest =>
          let var_decl := VarDeclarator.mk p (some (make_ref_idx_expr refId i))
          match foldRun fuel (.af af (.varDeclarators [var_decl])) with
          | some (.af (.vdrList newDecls) af) =>
            foldRun fuel (.af af (.arrayDeclLoop (decls ++ newDecls) refId (i + 1) rest))
          | _ => none
      | .af af (.objDeclLoop decls refId props) =>
        match props with
        | [] => some (.af (.vdrList decls) af)
        | .keyValue key value :: rest =>
          let computed :=
            match key with
            | .computed _ => true
            | _ => false
          let var_decl := VarDeclarator.mk value
            (some (make_ref_prop_expr refId (prop_name_to_expr key) computed))
          match foldRun fuel (.af af (.varDeclarators [var_decl])) with
          | some (.af (.vdrList newDecls) af) =>
            foldRun fuel (.af af (.objDeclLoop (decls ++ newDecls) refId rest))
          | _ => none
        | .assignProp key (some value) :: rest =>
          let (ref2, decls, mark) := make_ref_ident af.c decls
            (some (make_ref_prop_expr refId (.ident key) false)) af.mark
          let af := { af with mark := mark }
          let var_decl := VarDeclarator.mk (Pat.ident key)
            (some (make_cond_expr ref2 value))
          match foldRun fuel (.af af (.varDeclarators [var_decl])) with
          | some (.af (.vdrList newDecls) af) =>
            foldRun fuel (.af af (.objDeclLoop (decls ++ newDecls) refId rest))
          | _ => none
        | .assignProp key none :: rest =>
          let var_decl := VarDeclarator.mk (Pat.ident key)
            (some (make_ref_prop_expr refId (.ident key) false))
          match foldRun fuel (.af af (.varDeclarators [var_decl])) with
          | some (.af (.vdrList newDecls) af) =>
            foldRun fuel (.af af (.objDeclLoop (decls ++ newDecls) refId rest))
          | _ => none
      | .d c mark (.stmtsChildren ss) =>
        match ss with
        | [] => some (.d (.stmtList []) mark)
        | s :: rest =>
          match foldRun fuel (.d c mark (.stmtChildren s)) with
          | some (.d (.s s1) mark) =>
            match foldRun fuel (.d c mark (.stmtsChildren rest)) with
            | some (.d (.stmtList rest1) mark) =>
              some (.d (.stmtList (s1 :: rest1)) mark)
            | _ => none
          | _ => none
      | .d c mark (.stmtChildren s) =>
        match s with
        | .expr e =>
          match foldRun fuel (.d c mark (.expr e)) with
          | some (.d (.e e1) mark) => some (.d (.s (.expr e1)) mark)
          | _ => none
        | .decl (.mk kind ds) =>
          match foldRun fuel (.d c mark (.vdrsChildren ds)) with
          | some (.d (.vdrList ds1) mark) => some (.d (.s (.decl (.mk kind ds1))) mark)
          | _ => none
        | .ifStmt t cs a =>
          match foldRun fuel (.d c mark (.expr t)) with
          | some (.d (.e t1) mark) =>
            match foldRun fuel (.d c mark (.stmtChildren cs)) with
            | some (.d (.s c1) mark) =>
              match a with
              | none => some (.d (.s (.ifStmt t1 c1 none)) mark)
              | some s2 =>
                match foldRun fuel (.d c mark (.stmtChildren s2)) with
                | some (.d (.s s3) mark) => some (.d (.s (.ifStmt t1 c1 (some s3))) mark)
                | _ => none
            | _ => none
          | _ => none
        | .ret arg =>
          match foldRun fuel (.d c mark (.optExpr arg)) with
          | some (.d (.optExpr a1) mark) => some (.d (.s (.ret a1)) mark)
          | _ => none
        | .block ss =>
          match foldRun fuel (.d c mark (.stmts ss)) with
          | some (.d (.stmtList ss1) mark) => some (.d (.s (.block ss1)) mark)
          | _ => none
      | .d c mark (.stmtsBuf ss) =>
        match ss with
        | [] => some (.d (.stmtList []) mark)
        | s :: rest =>
          match foldRun fuel (.af ⟨c, false, [], false, mark⟩ (.stmt s)) with
          | some (.af (.s s1) af) =>
            match foldRun fuel (.d c af.mark (.stmtsBuf rest)) with
            | some (.d (.stmtList buf) mark) =>
              some (.d (.stmtList ((if af.vars.isEmpty then [] else
                [Stmt.decl (VarDecl.mk .varKind af.vars)]) ++ s1 :: buf)) mark)
            | _ => none
          | _ => none
      | .d c mark (.expr e) =>
        match e with
        | .ident _ => some (.d (.e e) mark)
        | .thisExpr => some (.d (.e e) mark)
        | .lit _ => some (.d (.e e) mark)
        | .superCall args =>
          match foldRun fuel (.d c mark (.eosList args)) with
          | some (.d (.eosList args1) mark) => some (.d (.e (.superCall args1)) mark)
          | _ => none
        | .call callee args =>
          match foldRun fuel (.d c mark (.expr callee)) with
          | some (.d (.e c1) mark) =>
            match foldRun fuel (.d c mark (.eosList args)) with
            | some (.d (.eosList args1) mark) => some (.d (.e (.call c1 args1)) mark)
            | _ => none
          | _ => none
        | .newExpr callee args =>
          match foldRun fuel (.d c mark (.expr callee)) with
          | some (.d (.e c1) mark) =>
            match foldRun fuel (.d c mark (.eosList args)) with
            | some (.d (.eosList args1) mark) => some (.d (.e (.newExpr c1 args1)) mark)
            | _ => none
          | _ => none
        | .member obj prop computed =>
          match foldRun fuel (.d c mark (.expr obj)) with
          | some (.d (.e o1) mark) =>
            match foldRun fuel (.d c mark (.expr prop)) with
            | some (.d (.e p1) mark) => some (.d (.e (.member o1 p1 computed)) mark)
            | _ => none
          | _ => none
        | .assign left right =>
          match foldRun fuel (.d c mark (.patOrExpr left)) with
          | some (.d (.poe l1) mark) =>
            match foldRun fuel (.d c mark (.expr right)) with
            | some (.d (.e r1) mark) => some (.d (.e (.assign l1 r1)) mark)
            | _ => none
          | _ => none
        | .cond t cs a =>
          match foldRun fuel (.d c mark (.expr t)) with
          | some (.d (.e t1) mark) =>
            match foldRun fuel (.d c mark (.expr cs)) with
            | some (.d (.e c1) mark) =>
              match foldRun fuel (.d c mark (.expr a)) with
              | some (.d (.e a1) mark) => some (.d (.e (.cond t1 c1 a1)) mark)
              | _ => none
            | _ => none
          | _ => none
        | .bin op l r =>
          match foldRun fuel (.d c mark (.expr l)) with
          | some (.d (.e l1) mark) =>
            match foldRun fuel (.d c mark (.expr r)) with
            | some (.d (.e r1) mark) => some (.d (.e (.bin op l1 r1)) mark)
            | _ => none
          | _ => none
        | .unary op a =>
          match foldRun fuel (.d c mark (.expr a)) with
          | some (.d (.e a1) mark) => some (.d (.e (.unary op a1)) mark)
          | _ => none
        | .seq es =>
          match foldRun fuel (.d c mark (.exprList es)) with
          | some (.d (.exprList es1) mark) => some (.d (.e (.seq es1)) mark)
          | _ => none
        | .arrow params body =>
          match foldRun fuel (.d c mark (.fnLike params body)) with
          | some (.d (.fnLike ps1 b1) mark) => some (.d (.e (.arrow ps1 b1)) mark)
          | _ => none
        | .fnExpr params body =>
          match foldRun fuel (.d c mark (.fnLike params body)) with
          | some (.d (.fnLike ps1 b1) mark) => some (.d (.e (.fnExpr ps1 b1)) mark)
          | _ => none
        | .array elems =>
          match foldRun fuel (.d c mark (.optEosList elems)) with
          | some (.d (.optEosList es1) mark) => some (.d (.e (.array es1)) mark)
          | _ => none
      | .d c mark (.fnLike params body) =>
        let (params1, declsAcc, mark) := dFnParams params mark
        let stmts0 :=
          match declsAcc with
          | [] => body
          | _ => Stmt.decl (VarDecl.mk .letKind declsAcc) :: body
        match foldRun fuel (.d c mark (.stmts stmts0)) with
        | some (.d (.stmtList stmts1) mark) => some (.d (.fnLike params1 stmts1) mark)
        | _ => none
      | .d c mark (.exprList es) =>
        match es with
        | [] => some (.d (.exprList []) mark)
        | e :: rest =>
          match foldRun fuel (.d c mark (.expr e)) with
          | some (.d (.e e1) mark) =>
            match foldRun fuel (.d c mark (.exprList rest)) with
            | some (.d (.exprList rest1) mark) => some (.d (.exprList (e1 :: rest1)) mark)
            | _ => none
          | _ => none
      | .d c mark (.optExpr o) =>
        match o with
        | none => some (.d (.optExpr none) mark)
        | some e =>
          match foldRun fuel (.d c mark (.expr e)) with
          | some (.d (.e e1) mark) => some (.d (.optExpr (some e1)) mark)
          | _ => none
      | .d c mark (.eos x) =>
        match x with
        | .mk spread e =>
          match foldRun fuel (.d c mark (.expr e)) with
          | some (.d (.e e1) mark) => some (.d (.eos (.mk spread e1)) mark)
          | _ => none
      | .d c mark (.eosList xs) =>
        match xs with
        | [] => some (.d (.eosList []) mark)
        | x :: rest =>
          match foldRun fuel (.d c mark (.eos x)) with
          | some (.d (.eos x1) mark) =>
            match foldRun fuel (.d c mark (.eosList rest)) with
            | some (.d (.eosList rest1) mark) => some (.d (.eosList (x1 :: rest1)) mark)
            | _ => none
          | _ => none
      | .d c mark (.optEosList xs) =>
        match xs with
        | [] => some (.d (.optEosList []) mark)
        | none :: rest =>
          match foldRun fuel (.d c mark (.optEosList rest)) with
          | some (.d (.optEosList rest1) mark) =>
            some (.d (.optEosList (none :: rest1)) mark)
          | _ => none
        | some x :: rest =>
          match foldRun fuel (.d c mark (.eos x)) with
          | some (.d (.eos x1) mark) =>
            match foldRun fuel (.d c mark (.optEosList rest)) with
            | some (.d (.optEosList rest1) mark) =>
              some (.d (.optEosList (some x1 :: rest1)) mark)
            | _ => none
          | _ => none
      | .d c mark (.pat p) =>
        match p with
        | .ident _ => some (.d (.p p) mark)
        | .array elems =>
          match foldRun fuel (.d c mark (.optPatList elems)) with
          | some (.d (.optPatList es1) mark) => some (.d (.p (.array es1)) mark)
          | _ => none
        | .object props =>
          match foldRun fuel (.d c mark (.oppList props)) with
          | some (.d (.oppList ps1) mark) => some (.d (.p (.object ps1)) mark)
          | _ => none
        | .assign l r =>
          match foldRun fuel (.d c mark (.pat l)) with
          | some (.d (.p l1) mark) =>
            match foldRun fuel (.d c mark (.expr r)) with
            | some (.d (.e r1) mark) => some (.d (.p (.assign l1 r1)) mark)
            | _ => none
          | _ => none
        | .rest a =>
          match foldRun fuel (.d c mark (.pat a)) with
          | some (.d (.p a1) mark) => some (.d (.p (.rest a1)) mark)
          | _ => none
        | .exprPat e =>
          match foldRun fuel (.d c mark (.expr e)) with
          | some (.d (.e e1) mark) => some (.d (.p (.exprPat e1)) mark)
          | _ => none
      | .d c mark (.patList ps) =>
        match ps with
        | [] => some (.d (.patList []) mark)
        | p :: rest =>
          match foldRun fuel (.d c mark (.pat p)) with
          | some (.d (.p p1) mark) =>
            match foldRun fuel (.d c mark (.patList rest)) with
            | some (.d (.patList rest1) mark) => some (.d (.patList (p1 :: rest1)) mark)
            | _ => none
          | _ => none
      | .d c mark (.optPatList ps) =>
        match ps with
        | [] => some (.d (.optPatList []) mark)
        | none :: rest =>
          match foldRun fuel (.d c mark (.optPatList rest)) with
          | some (.d (.optPatList rest1) mark) =>
            some (.d (.optPatList (none :: rest1)) mark)
          | _ => none
        | some p :: rest =>
          match foldRun fuel (.d c mark (.pat p)) with
          | some (.d (.p p1) mark) =>
            match foldRun fuel (.d c mark (.optPatList rest)) with
            | some (.d (.optPatList rest1) mark) =>
              some (.d (.optPatList (some p1 :: rest1)) mark)
            | _ => none
          | _ => none
      | .d c mark (.opp x) =>
        match x with
        | .keyValue key value =>
          match foldRun fuel (.d c mark (.propName key)) with
          | some (.d (.pname k1) mark) =>
            match foldRun fuel (.d c mark (.pat value)) with
            | some (.d (.p v1) mark) => some (.d (.opp (.keyValue k1 v1)) mark)
            | _ => none
          | _ => none
        | .assignProp key value =>
          match foldRun fuel (.d c mark (.optExpr value)) with
          | some (.d (.optExpr v1) mark) => some (.d (.opp (.assignProp key v1)) mark)
          | _ => none
      | .d c mark (.oppList xs) =>
        match xs with
        | [] => some (.d (.oppList []) mark)
        | x :: rest =>
          match foldRun fuel (.d c mark (.opp x)) with
          | some (.d (.opp x1) mark) =>
            match foldRun fuel (.d c mark (.oppList rest)) with
            | some (.d (.oppList rest1) mark) => some (.d (.oppList (x1 :: rest1)) mark)
            | _ => none
          | _ => none
      | .d c mark (.propName k) =>
        match k with
        | .computed e =>
          match foldRun fuel (.d c mark (.expr e)) with
          | some (.d (.e e1) mark) => some (.d (.pname (.computed e1)) mark)
          | _ => none
        | _ => some (.d (.pname k) mark)
      | .d c mark (.patOrExpr x) =>
        match x with
        | .pat p =>
          match foldRun fuel (.d c mark (.pat p)) with
          | some (.d (.p p1) mark) => some (.d (.poe (.pat p1)) mark)
          | _ => none
        | .expr e =>
          match foldRun fuel (.d c mark (.expr e)) with
          | some (.d (.e e1) mark) => some (.d (.poe (.expr e1)) mark)
          | _ => none
      | .d c mark (.vdrsChildren ds) =>
        match ds with
        | [] => some (.d (.vdrList []) mark)
        | .mk name init :: rest =>
          match foldRun fuel (.d c mark (.pat name)) with
          | some (.d (.p n1) mark) =>
            match foldRun fuel (.d c mark (.optExpr init)) with
            | some (.d (.optExpr i1) mark) =>
              match foldRun fuel (.d c mark (.vdrsChildren rest)) with
              | some (.d (.vdrList rest1) mark) =>
                some (.d (.vdrList (.mk n1 i1 :: rest1)) mark)
              | _ => none
            | _ => none
          | _ => none
termination_by structural fuel

/-- `Fold<Vec<T>> for Destructuring` over a statement list (the
`Destructuring` entry point used by the theorems): the fast path returns
the list unchanged when the precheck visitor finds no destructuring
pattern; otherwise the children fold plus per-statement `AssignFolder` run
with hoisting of accumulated `vars`. -/
def dStmts (fuel : Nat) (c : Config) (mark : Nat) (ss : List Stmt) :
    Option (List Stmt × Nat) :=
  match foldRun fuel (.d c mark (.stmts ss)) with
  | some (.d (.stmtList ss1) mark) => some (ss1, mark)
  | _ => none

/-- `Fold<Stmt> for AssignFolder` as a function on statements. -/
def afStmt (fuel : Nat) (af : AssignFolder) (s : Stmt) :
    Option (Stmt × AssignFolder) :=
  match foldRun fuel (.af af (.stmt s)) with
  | some (.af (.s s1) af1) => some (s1, af1)
  | _ => none

/-- `Fold<Expr> for AssignFolder` as a function on expressions. -/
def afExpr (fuel : Nat) (af : AssignFolder) (e : Expr) :
    Option (Expr × AssignFolder) :=
  match foldRun fuel (.af af (.expr e)) with
  | some (.af (.e e1) af1) => some (e1, af1)
  | _ => none

/-- `AssignFolder::fold_var_decl(&mut decls, decl)` as a function returning
the extended accumulator. -/
def fold_var_decl (fuel : Nat) (af : AssignFolder)
    (decls : List VarDeclarator) (decl : VarDeclarator) :
    Option (List VarDeclarator × AssignFolder) :=
  match foldRun fuel (.af af (.foldVarDecl decls decl)) with
  | some (.af (.vdrList decls1) af1) => some (decls1, af1)
  | _ => none


/-!
`make_possible_return_value` (`compat/es2015/classes/constructor.rs`).
-/

/-- `enum ReturningMode`: `Returning { mark, arg }` for rewritten `return`
statements, `Prototype { is_constructor_default, class_name, args }` for
rewritten `super(...)` calls (`args = None` when the `super(arguments)`
call is injected for a defaulted constructor). -/
inductive ReturningMode where
  | returning (mark : Nat) (arg : Option Expr)
  | prototype (is_constructor_default : Bool) (class_name : Ident)
      (args : Option (List ExprOrSpread))

/-- Modelled from the spec: `get_prototype_of(class_name)` from the
enclosing classes module (not among the sources here) — per the spec the
emitted call is `getPrototypeOf(ClassName)`. -/
def get_prototype_of (obj : Expr) : Expr :=
  .call (helperIdent "getPrototypeOf") [.mk false obj]

/-- `make_possible_return_value(mode)`: a call of the
`possibleConstructorReturn` helper whose arguments are
* for `Returning { mark, arg }`: `_this` (carrying the mark) followed by
  the optional argument;
* for `Prototype { is_constructor_default, class_name, args }`:
  `this` and `getPrototypeOf(ClassName).<fn_name>(<args>)`, where a
  defaulted constructor or `args = None` uses
  `apply(this, arguments)`; a single-spread argument list
  `super(...spread)` is unwrapped to `apply(this, spread)` (the spread flag
  is cleared and the element passed as the second argument); every other
  argument list uses `call(this, ...args)` with `this` prepended. -/
def make_possible_return_value (mode : ReturningMode) : Expr :=
  Expr.call (helperIdent "possibleConstructorReturn")
    (match mode with
     | .returning mark arg =>
       ExprOrSpread.mk false (.ident ⟨"_this", mark⟩) ::
         (match arg with
          | none => []
          | some a => [ExprOrSpread.mk false a])
     | .prototype is_constructor_default class_name args =>
       let fnNameArgs : Ident × List ExprOrSpread :=
         if is_constructor_default then
           (⟨"apply", 0⟩,
             [.mk false .thisExpr, .mk false (.ident ⟨"arguments", 0⟩)])
         else
           match args with
           | some args =>
             match args with
             | [ExprOrSpread.mk true e] =>
               (⟨"apply", 0⟩, [.mk false .thisExpr, .mk false e])
             | _ => (⟨"call", 0⟩, ExprOrSpread.mk false .thisExpr :: args)
           | none =>
             (⟨"apply", 0⟩,
               [.mk false .thisExpr, .mk false (.ident ⟨"arguments", 0⟩)])
       [ExprOrSpread.mk false .thisExpr,
        ExprOrSpread.mk false (Expr.call
          (.member (get_prototype_of (.ident class_name))
            (.ident fnNameArgs.1) false)
          fnNameArgs.2)])

/-!
Fixtures used by the theorems: concrete statement lists exercising the
constructor lowering and the destructuring pass.
-/

/-- Fixture for C3: a constructor body with two `super()` expression
statements, the second of which is the last statement. -/

def twoSuperTailBody : List Stmt :=
  [Stmt.expr (Expr.superCall []), Stmt.expr (Expr.superCall [])]

/-- Fixture for C2: the statement `let {a = 3} = o;` — a `let` declaration
whose pattern is an object pattern with the single defaulted shorthand
property `a = 3` and whose initializer is the plain identifier `o`. -/

def objectDefaultInput : List Stmt :=
  [Stmt.decl (VarDecl.mk .letKind
    [VarDeclarator.mk
      (Pat.object [ObjectPatProp.assignProp ⟨"a", 0⟩ (some (Expr.lit (Lit.num 3)))])
      (some (Expr.ident ⟨"o", 0⟩))])]

/-- Fixture for C2: the output the pass actually produces for
`objectDefaultInput` — `let _a = o.a, a = _a === void 0 ? 3 : _a;`: the
property is read directly off the identifier initializer `o` (no `_ref`
alias is created, identifier initializers being exempt from aliasing), and
the declaration kind stays `let`. -/

def objectDefaultActual : List Stmt :=
  [Stmt.decl (VarDecl.mk .letKind
    [VarDeclarator.mk (Pat.ident ⟨"_a", 1⟩)
       (some (Expr.member (Expr.ident ⟨"o", 0⟩) (Expr.ident ⟨"a", 0⟩) false)),
     VarDeclarator.mk (Pat.ident ⟨"a", 0⟩)
       (some (Expr.cond
         (Expr.bin .eqeqeq (Expr.ident ⟨"_a", 1⟩)
           (Expr.unary .voidOp (Expr.lit (Lit.num 0))))
         (Expr.lit (Lit.num 3))
         (Expr.ident ⟨"_a", 1⟩)))])]

/-- Modelled from the spec's words for C2: the claimed output
`var _ref = o, _a = _ref.a, a = _a === void 0 ? 3 : _a;` opens by binding
a fresh alias `_ref` to the initializer expression `o`.  This predicate
checks that first declarator shape on the pass output. -/

def objectDefaultSpecShape (out : Option (List Stmt × Nat)) : Bool :=
  match out with
  | some ([Stmt.decl (VarDecl.mk _ (d1 :: _))], _) =>
    (match d1 with
     | VarDeclarator.mk (Pat.ident i) (some (Expr.ident o)) =>
       i.sym == "_ref" && o.sym == "o"
     | _ => false)
  | _ => false

/-!
Theorems.
-/

/-- Claim C1 (counterexample): for span A = `[5,10)` with the root context
and span B = `[20,25)` with context `1`, `A.to(B)` is B itself — the span
`[20,25)` with context `1` — and not the enclosing span `[5,25)` with
context `1` that the claim asserts. -/
theorem span_to_claim_counterexample :
    SpanData.to ⟨⟨5⟩, ⟨10⟩, 0⟩ ⟨⟨20⟩, ⟨25⟩, 1⟩ = ⟨⟨20⟩, ⟨25⟩, 1⟩ ∧
      (⟨⟨20⟩, ⟨25⟩, 1⟩ : SpanData) ≠ ⟨⟨5⟩, ⟨25⟩, 1⟩ := by
  constructor
  · decide
  · decide

/-- Claim C1 (amended): when the contexts differ and `a`'s context is the
root, `a.to(b)` returns `b` unchanged (carrying `b`'s bounds, not the
enclosing bounds); when they differ and only `b`'s context is the root it
returns `a` unchanged; otherwise (equal contexts, or two distinct non-root
contexts) it returns the enclosing span with bounds `min(lo)`/`max(hi)`
and context `b.ctxt` when `a`'s context is the root and `a.ctxt`
otherwise. -/
theorem span_to_amended (a b : SpanData) :
    (a.ctxt ≠ b.ctxt → a.ctxt = SyntaxContext.root → SpanData.to a b = b) ∧
    (a.ctxt ≠ b.ctxt → a.ctxt ≠ SyntaxContext.root → b.ctxt = SyntaxContext.root →
      SpanData.to a b = a) ∧
    (a.ctxt = b.ctxt ∨ (a.ctxt ≠ SyntaxContext.root ∧ b.ctxt ≠ SyntaxContext.root) →
      SpanData.to a b =
        ⟨bytePosMin a.lo b.lo, bytePosMax a.hi b.hi,
          if a.ctxt = SyntaxContext.root then b.ctxt else a.ctxt⟩) := by
  refine ⟨fun h1 h2 => ?_, fun h1 h2 h3 => ?_, fun h => ?_⟩
  · rw [SpanData.to, if_pos ⟨h1, h2⟩]
  · rw [SpanData.to, if_neg (fun hc => h2 hc.2), if_pos ⟨h1, h3⟩]
  · rcases h with h | ⟨h1, h2⟩
    · rw [SpanData.to, if_neg (fun hc => hc.1 h),
        if_neg (fun hc => hc.1 h)]
    · rw [SpanData.to, if_neg (fun hc => h1 hc.2), if_neg (fun hc => h2 hc.2)]

/-- Witness for the amended C1 claim at the concrete spans of the claim. -/
theorem span_to_amended_witness :
    SpanData.to ⟨⟨5⟩, ⟨10⟩, 0⟩ ⟨⟨20⟩, ⟨25⟩, 1⟩ = ⟨⟨20⟩, ⟨25⟩, 1⟩ :=
  (span_to_amended ⟨⟨5⟩, ⟨10⟩, 0⟩ ⟨⟨20⟩, ⟨25⟩, 1⟩).1 (by decide) (by decide)

/-- Claim C4 (counterexample): `remove_bom` is not idempotent — on a text
consisting of two BOM characters, the first application leaves one BOM and
the second application removes it. -/
theorem remove_bom_claim_counterexample :
    remove_bom (remove_bom [bomChar, bomChar]) ≠ remove_bom [bomChar, bomChar] := by
  decide

/-- Claim C4 (amended): `remove_bom` is idempotent on every string that
does not begin with two consecutive BOM characters. -/
theorem remove_bom_idempotent_amended (src : List Char)
    (h : src.take 2 ≠ [bomChar, bomChar]) :
    remove_bom (remove_bom src) = remove_bom src := by
  match src with
  | [] => rfl
  | [c] =>
    by_cases hc : c = bomChar
    · subst hc
      simp [remove_bom]
    · simp [remove_bom, hc]
  | c1 :: c2 :: rest =>
    by_cases h1 : c1 = bomChar
    · subst h1
      have h2 : c2 ≠ bomChar := by
        intro h2
        subst h2
        simp [List.take] at h
      simp [remove_bom, h2]
    · simp [remove_bom, h1]

/-- Witness for the amended C4 claim at a single-BOM text. -/
theorem remove_bom_idempotent_amended_witness :
    remove_bom (remove_bom [bomChar]) = remove_bom [bomChar] :=
  remove_bom_idempotent_amended [bomChar] (by decide)

/-- Claim C8: `BytePos` subtraction is defined exactly under `b ≤ a`
(in-bounds it is `BytePos(a.0 - b.0)`, the underflow branch is the `none`
case), and for `a < b` the unsigned subtraction underflows (`none`). -/
theorem bytePos_sub_spec (a b : BytePos) :
    (a.val < 2 ^ 32 → b.val ≤ a.val → bytePosSub a b = some ⟨a.val - b.val⟩) ∧
    (a.val < b.val → bytePosSub a b = none) := by
  constructor
  · intro ha hba
    rw [bytePosSub, if_pos hba]
    congr 1
    exact congrArg BytePos.mk
      (Nat.mod_eq_of_lt (lt_of_le_of_lt (Nat.sub_le _ _) ha))
  · intro h
    rw [bytePosSub, if_neg (by omega)]

/-- Witness for C8: `BytePos(10) - BytePos(3) = BytePos(7)`. -/
theorem bytePos_sub_spec_witness : bytePosSub ⟨10⟩ ⟨3⟩ = some ⟨7⟩ := by
  have h := (bytePos_sub_spec ⟨10⟩ ⟨3⟩).1 (by norm_num) (by norm_num)
  simpa using h

/-- Claim C9: for a `SourceFile` with `start_pos = end_pos`,
`line_bounds` returns `(start_pos, end_pos)` for every `line_index`
without reaching the index assertion; the assertion (the `none` branch on
an out-of-bounds index) is only reachable for non-empty files. -/
theorem line_bounds_empty_file (f : SourceFile) (i : Nat) :
    (f.start_pos = f.end_pos → f.line_bounds i = some (f.start_pos, f.end_pos)) ∧
    (f.start_pos ≠ f.end_pos → f.lines.length ≤ i → f.line_bounds i = none) := by
  constructor
  · intro h
    rw [SourceFile.line_bounds, if_pos h]
  · intro h hi
    rw [SourceFile.line_bounds, if_neg h, if_neg (by omega)]

/-- Witness for C9 at an empty file and an arbitrary large index. -/
theorem line_bounds_empty_file_witness :
    SourceFile.line_bounds ⟨5, 5, []⟩ 1000 = some (5, 5) :=
  (line_bounds_empty_file ⟨5, 5, []⟩ 1000).1 rfl

/-- Claim C10: `is_dummy` is true exactly when `lo = hi = 0` (any hygienic
context), and `substitute_dummy` returns `other` exactly for such spans and
`self` for every span with `lo ≠ 0` or `hi ≠ 0`. -/
theorem is_dummy_substitute_dummy (s other : SpanData) :
    (s.is_dummy = true ↔ s.lo.val = 0 ∧ s.hi.val = 0) ∧
    (s.lo.val = 0 → s.hi.val = 0 → s.substitute_dummy other = other) ∧
    (s.lo.val ≠ 0 ∨ s.hi.val ≠ 0 → s.substitute_dummy other = s) := by
  refine ⟨?_, fun h1 h2 => ?_, fun h => ?_⟩
  · simp [SpanData.is_dummy]
  · rw [SpanData.substitute_dummy, if_pos]
    simp [SpanData.is_dummy, h1, h2]
  · rw [SpanData.substitute_dummy, if_neg]
    simp only [SpanData.is_dummy, Bool.and_eq_true, beq_iff_eq, not_and]
    intro h1 h2
    rcases h with h | h
    · exact h h1
    · exact h h2

/-- Witness for C10: a dummy span with non-root context is substituted. -/
theorem is_dummy_substitute_dummy_witness :
    SpanData.substitute_dummy ⟨⟨0⟩, ⟨0⟩, 7⟩ ⟨⟨1⟩, ⟨2⟩, 0⟩ = ⟨⟨1⟩, ⟨2⟩, 0⟩ :=
  (is_dummy_substitute_dummy ⟨⟨0⟩, ⟨0⟩, 7⟩ ⟨⟨1⟩, ⟨2⟩, 0⟩).2.1 rfl rfl

/-- On a strictly sorted list containing `pos`, the index found by the
search is the number of elements smaller than `pos`. -/
theorem indexOf_eq_countP_lt (pos : Nat) :
    ∀ (l : List Nat), l.Pairwise (· < ·) → pos ∈ l →
      l.indexOf pos = l.countP (fun a => a < pos) := by
  intro l
  induction l with
  | nil => simp
  | cons b t ih =>
    intro hp hm
    rcases List.pairwise_cons.mp hp with ⟨hb, hpt⟩
    by_cases hA : b = pos
    · subst hA
      have ht : t.countP (fun a => a < b) = 0 :=
        List.countP_eq_zero.mpr (by
          intro x hx
          have := hb x hx
          simp
          omega)
      simp [List.indexOf_cons_eq _ rfl, List.countP_cons, ht]
    · have hmt : pos ∈ t := by
        rcases List.mem_cons.mp hm with h | h
        · exact absurd h.symm hA
        · exact h
      have halt : b < pos := hb pos hmt
      rw [List.indexOf_cons_ne _ (by simpa using hA), ih hpt hmt]
      simp [List.countP_cons, halt]

/-- Without `pos` in the list, `≤ pos` and `< pos` count the same. -/
theorem countP_le_eq_countP_lt_of_not_mem (pos : Nat) :
    ∀ (l : List Nat), pos ∉ l →
      l.countP (fun a => a ≤ pos) = l.countP (fun a => a < pos) := by
  intro l
  induction l with
  | nil => simp
  | cons b t ih =>
    intro hm
    have hbt : pos ∉ t := fun h => hm (List.mem_cons_of_mem _ h)
    have hbp : b ≠ pos := fun h => hm (h ▸ List.mem_cons_self _ _)
    rw [List.countP_cons, List.countP_cons, ih hbt]
    have : (decide (b ≤ pos)) = (decide (b < pos)) := by
      by_cases h : b ≤ pos
      · simp [h]
        omega
      · simp [h]
        omega
    rw [this]

/-- With `pos` in a strictly sorted list, counting `≤ pos` is one more
than counting `< pos`. -/
theorem countP_le_eq_countP_lt_succ_of_mem (pos : Nat) :
    ∀ (l : List Nat), l.Pairwise (· < ·) → pos ∈ l →
      l.countP (fun a => a ≤ pos) = l.countP (fun a => a < pos) + 1 := by
  intro l
  induction l with
  | nil => simp
  | cons b t ih =>
    intro hp hm
    rcases List.pairwise_cons.mp hp with ⟨hb, hpt⟩
    by_cases hA : b = pos
    · subst hA
      have hle : t.countP (fun a => a ≤ b) = 0 :=
        List.countP_eq_zero.mpr (by
          intro x hx
          have := hb x hx
          simp
          omega)
      have hlt : t.countP (fun a => a < b) = 0 :=
        List.countP_eq_zero.mpr (by
          intro x hx
          have := hb x hx
          simp
          omega)
      simp [List.countP_cons, hle, hlt]
    · have hmt : pos ∈ t := by
        rcases List.mem_cons.mp hm with h | h
        · exact absurd h.symm hA
        · exact h
      have halt : b < pos := hb pos hmt
      rw [List.countP_cons, List.countP_cons, ih hpt hmt]
      simp [halt]
      omega

/-- On a strictly sorted line table, the search result is the number of
line starts `≤ pos`, minus one. -/
theorem lookup_line_eq_countP (lines : List Nat) (pos : Nat)
    (h : lines.Pairwise (· < ·)) :
    lookup_line lines pos = (lines.countP (fun a => a ≤ pos) : Int) - 1 := by
  rw [lookup_line, binary_search]
  by_cases hm : pos ∈ lines
  · rw [if_pos hm]
    simp only [indexOf_eq_countP_lt pos lines h hm,
      countP_le_eq_countP_lt_succ_of_mem pos lines h hm]
    push_cast
    ring
  · rw [if_neg hm]
    simp only [countP_le_eq_countP_lt_of_not_mem pos lines hm]

/-- Bracketing: on a strictly sorted list, the element at index `i` is
`≤ pos` exactly when `i` is below the number of elements `≤ pos`. -/
theorem get?_le_iff_lt_countP (pos : Nat) :
    ∀ (l : List Nat), l.Pairwise (· < ·) →
      ∀ i a, l.get? i = some a →
        (a ≤ pos ↔ i < l.countP (fun x => x ≤ pos)) := by
  intro l
  induction l with
  | nil => simp
  | cons b t ih =>
    intro hp i a hget
    rcases List.pairwise_cons.mp hp with ⟨hb, hpt⟩
    have hcnt : (b :: t).countP (fun x => x ≤ pos) =
        t.countP (fun x => x ≤ pos) + if b ≤ pos then 1 else 0 := by
      rw [List.countP_cons]
      by_cases hbp : b ≤ pos <;> simp [hbp]
    match i with
    | 0 =>
      have hba : b = a := by simpa using hget
      subst hba
      by_cases hbp : b ≤ pos
      · rw [hcnt]
        simp [hbp]
      · have ht : t.countP (fun x => x ≤ pos) = 0 :=
          List.countP_eq_zero.mpr (by
            intro x hx
            have := hb x hx
            simp
            omega)
        rw [hcnt, ht]
        simp [hbp]
    | j + 1 =>
      have hget' : t.get? j = some a := by simpa using hget
      have hmem : a ∈ t := List.get?_mem hget'
      by_cases hbp : b ≤ pos
      · rw [hcnt, if_pos hbp, ← Nat.succ_lt_succ_iff]
        have := ih hpt j a hget'
        omega
      · have ht : t.countP (fun x => x ≤ pos) = 0 :=
          List.countP_eq_zero.mpr (by
            intro x hx
            have := hb x hx
            simp
            omega)
        have hax : b < a := hb a hmem
        rw [hcnt, ht, if_neg hbp]
        omega

/-- Claim C5: on a strictly increasing line table,
* the internal `lookup_line` returns `-1` exactly when the file is empty
  or the position precedes the first line start;
* a non-negative result `i` brackets the position:
  `lines[i] ≤ pos`, and `pos < lines[i+1]` whenever a next line exists;
* the result is always below the table length (the assertion in
  `SourceFile::lookup_line` cannot fail);
* at the `SourceFile` interface the result is `None` exactly when the file
  is empty or the position precedes the first line start;
* concretely, for lines `[3, 17, 28]`: positions `0, 3, 16, 17, 28, 29`
  give `-1, 0, 0, 1, 2, 2`. -/
theorem lookup_line_spec (lines : List Nat) (pos : Nat)
    (h : lines.Pairwise (· < ·)) :
    (lookup_line lines pos = -1 ↔ ∀ a, lines.head? = some a → pos < a) ∧
    (∀ i : Nat, lookup_line lines pos = (i : Int) →
      ∃ a, lines.get? i = some a ∧ a ≤ pos ∧
        ∀ b, lines.get? (i + 1) = some b → pos < b) ∧
    lookup_line lines pos < (lines.length : Int) ∧
    (∀ sp ep, SourceFile.lookup_line ⟨sp, ep, lines⟩ pos = none ↔
      (lines = [] ∨ ∀ a, lines.head? = some a → pos < a)) ∧
    (lookup_line [3, 17, 28] 0 = -1 ∧ lookup_line [3, 17, 28] 3 = 0 ∧
      lookup_line [3, 17, 28] 16 = 0 ∧ lookup_line [3, 17, 28] 17 = 1 ∧
      lookup_line [3, 17, 28] 28 = 2 ∧ lookup_line [3, 17, 28] 29 = 2) := by
  have hK := lookup_line_eq_countP lines pos h
  have hhead : (lines.countP (fun a => a ≤ pos) = 0 ↔
      ∀ a, lines.head? = some a → pos < a) := by
    rw [List.countP_eq_zero]
    constructor
    · intro hz a ha
      have : a ∈ lines := by
        cases lines with
        | nil => simp at ha
        | cons b t =>
          simp at ha
          subst ha
          exact List.mem_cons_self _ _
      have := hz a this
      simp at this
      omega
    · intro hh a ha
      cases lines with
      | nil => simp at ha
      | cons b t =>
        have hbpos : pos < b := hh b rfl
        rcases List.mem_cons.mp ha with h1 | h1
        · subst h1
          simp
          omega
        · have := (List.pairwise_cons.mp h).1 a h1
          simp
          omega
  refine ⟨?_, ?_, ?_, ?_, by decide⟩
  · rw [hK]
    constructor
    · intro hz
      exact hhead.mp (by omega)
    · intro hh
      have := hhead.mpr hh
      omega
  · intro i hi
    rw [hK] at hi
    have hcnt : lines.countP (fun a => a ≤ pos) = i + 1 := by omega
    have hclen : lines.countP (fun a => a ≤ pos) ≤ lines.length :=
      List.countP_le_length _
    have hlen : i < lines.length := by omega
    have hget : lines.get? i = some (lines.get ⟨i, hlen⟩) :=
      List.get?_eq_get hlen
    refine ⟨lines.get ⟨i, hlen⟩, hget, ?_, ?_⟩
    · exact (get?_le_iff_lt_countP pos lines h i _ hget).mpr (by omega)
    · intro b hb
      have hiff := get?_le_iff_lt_countP pos lines h (i + 1) b hb
      by_contra hcon
      have hble : b ≤ pos := by omega
      have := hiff.mp hble
      omega
  · rw [hK]
    have hclen : lines.countP (fun a => a ≤ pos) ≤ lines.length :=
      List.countP_le_length _
    omega
  · intro sp ep
    rw [SourceFile.lookup_line]
    by_cases he : lines.isEmpty
    · rw [if_pos he]
      simp only [List.isEmpty_iff] at he
      simp [he]
    · rw [if_neg he]
      simp only [List.isEmpty_iff] at he
      have hclen : lines.countP (fun a => a ≤ pos) ≤ lines.length :=
        List.countP_le_length _
      have hlt : Swc.lookup_line lines pos < (lines.length : Int) := by
        rw [hK]
        omega
      rw [if_pos hlt]
      constructor
      · intro hr
        right
        split at hr
        · exact absurd hr (by simp)
        · rename_i hneg
          rw [hK] at hneg
          exact hhead.mp (by omega)
      · intro hr
        rcases hr with hr | hr
        · exact absurd hr he
        · have := hhead.mpr hr
          rw [if_neg]
          rw [hK]
          omega

/-- Witness for C5 at the concrete line table of the claim. -/
theorem lookup_line_spec_witness : lookup_line [3, 17, 28] 17 = 1 :=
  ((lookup_line_spec [3, 17, 28] 17 (by decide)).2.2.2.2).2.2.2.1

/-- The fast-path precheck is the complement of the all-identifier
predicate: whenever `allPatsIdent` computes a value, `DestructuringVisitor`
computes its negation (the visitor finds a destructuring pattern exactly
when not every pattern is an identifier pattern). -/
theorem allPatsIdent_dvFound (fuel : Nat) :
    ∀ node b, allPatsIdent fuel node = some b → dvFound fuel node = some (!b) := by
  induction fuel with
  | zero =>
    intro node b h
    simp [allPatsIdent] at h
  | succ n ih =>
    intro node b h
    match node with
    | .e (.ident _) =>
      simp only [allPatsIdent, Option.some.injEq] at h
      subst h
      simp [dvFound]
    | .e .thisExpr =>
      simp only [allPatsIdent, Option.some.injEq] at h
      subst h
      simp [dvFound]
    | .e (.lit _) =>
      simp only [allPatsIdent, Option.some.injEq] at h
      subst h
      simp [dvFound]
    | .exprList [] =>
      simp only [allPatsIdent, Option.some.injEq] at h
      subst h
      simp [dvFound]
    | .eosList [] =>
      simp only [allPatsIdent, Option.some.injEq] at h
      subst h
      simp [dvFound]
    | .optEosList [] =>
      simp only [allPatsIdent, Option.some.injEq] at h
      subst h
      simp [dvFound]
    | .p (.ident _) =>
      simp only [allPatsIdent, Option.some.injEq] at h
      subst h
      simp [dvFound]
    | .patList [] =>
      simp only [allPatsIdent, Option.some.injEq] at h
      subst h
      simp [dvFound]
    | .optPatList [] =>
      simp only [allPatsIdent, Option.some.injEq] at h
      subst h
      simp [dvFound]
    | .oppList [] =>
      simp only [allPatsIdent, Option.some.injEq] at h
      subst h
      simp [dvFound]
    | .pname (.identKey _) =>
      simp only [allPatsIdent, Option.some.injEq] at h
      subst h
      simp [dvFound]
    | .pname (.strKey _) =>
      simp only [allPatsIdent, Option.some.injEq] at h
      subst h
      simp [dvFound]
    | .pname (.numKey _) =>
      simp only [allPatsIdent, Option.some.injEq] at h
      subst h
      simp [dvFound]
    | .stmtList [] =>
      simp only [allPatsIdent, Option.some.injEq] at h
      subst h
      simp [dvFound]
    | .vdrList [] =>
      simp only [allPatsIdent, Option.some.injEq] at h
      subst h
      simp [dvFound]
    | .e (.superCall args) =>
      simp only [allPatsIdent] at h
      simp only [dvFound]
      exact ih (.eosList args) b h
    | .e (.unary _ a) =>
      simp only [allPatsIdent] at h
      simp only [dvFound]
      exact ih (.e a) b h
    | .e (.seq es) =>
      simp only [allPatsIdent] at h
      simp only [dvFound]
      exact ih (.exprList es) b h
    | .e (.array elems) =>
      simp only [allPatsIdent] at h
      simp only [dvFound]
      exact ih (.optEosList elems) b h
    | .eos x =>
      simp only [allPatsIdent] at h
      simp only [dvFound]
      exact ih (.e x.expr) b h
    | .pname (.computed e) =>
      simp only [allPatsIdent] at h
      simp only [dvFound]
      exact ih (.e e) b h
    | .poe (.pat p) =>
      simp only [allPatsIdent] at h
      simp only [dvFound]
      exact ih (.p p) b h
    | .poe (.expr e) =>
      simp only [allPatsIdent] at h
      simp only [dvFound]
      exact ih (.e e) b h
    | .s (.expr e) =>
      simp only [allPatsIdent] at h
      simp only [dvFound]
      exact ih (.e e) b h
    | .s (.decl d) =>
      simp only [allPatsIdent] at h
      simp only [dvFound]
      exact ih (.vd d) b h
    | .s (.block ss) =>
      simp only [allPatsIdent] at h
      simp only [dvFound]
      exact ih (.stmtList ss) b h
    | .vd (.mk _ ds) =>
      simp only [allPatsIdent] at h
      simp only [dvFound]
      exact ih (.vdrList ds) b h
    | .e (.call callee args) =>
      simp only [allPatsIdent] at h
      split at h
      · simp at h
      · rename_i a1 h1
        split at h
        · simp at h
        · rename_i a2 h2
          simp only [Option.some.injEq] at h
          subst h
          simp only [dvFound, ih (.e callee) _ h1, ih (.eosList args) _ h2]
          cases a1 <;> cases a2 <;> rfl
    | .e (.newExpr callee args) =>
      simp only [allPatsIdent] at h
      split at h
      · simp at h
      · rename_i a1 h1
        split at h
        · simp at h
        · rename_i a2 h2
          simp only [Option.some.injEq] at h
          subst h
          simp only [dvFound, ih (.e callee) _ h1, ih (.eosList args) _ h2]
          cases a1 <;> cases a2 <;> rfl
    | .e (.member obj prop _) =>
      simp only [allPatsIdent] at h
      split at h
      · simp at h
      · rename_i a1 h1
        split at h
        · simp at h
        · rename_i a2 h2
          simp only [Option.some.injEq] at h
          subst h
          simp only [dvFound, ih (.e obj) _ h1, ih (.e prop) _ h2]
          cases a1 <;> cases a2 <;> rfl
    | .e (.assign left right) =>
      simp only [allPatsIdent] at h
      split at h
      · simp at h
      · rename_i a1 h1
        split at h
        · simp at h
        · rename_i a2 h2
          simp only [Option.some.injEq] at h
          subst h
          simp only [dvFound, ih (.poe left) _ h1, ih (.e right) _ h2]
          cases a1 <;> cases a2 <;> rfl
    | .e (.bin _ l r) =>
      simp only [allPatsIdent] at h
      split at h
      · simp at h
      · rename_i a1 h1
        split at h
        · simp at h
        · rename_i a2 h2
          simp only [Option.some.injEq] at h
          subst h
          simp only [dvFound, ih (.e l) _ h1, ih (.e r) _ h2]
          cases a1 <;> cases a2 <;> rfl
    | .e (.arrow params body) =>
      simp only [allPatsIdent] at h
      split at h
      · simp at h
      · rename_i a1 h1
        split at h
        · simp at h
        · rename_i a2 h2
          simp only [Option.some.injEq] at h
          subst h
          simp only [dvFound, ih (.patList params) _ h1, ih (.stmtList body) _ h2]
          cases a1 <;> cases a2 <;> rfl
    | .e (.fnExpr params body) =>
      simp only [allPatsIdent] at h
      split at h
      · simp at h
      · rename_i a1 h1
        split at h
        · simp at h
        · rename_i a2 h2
          simp only [Option.some.injEq] at h
          subst h
          simp only [dvFound, ih (.patList params) _ h1, ih (.stmtList body) _ h2]
          cases a1 <;> cases a2 <;> rfl
    | .exprList (e :: rest) =>
      simp only [allPatsIdent] at h
      split at h
      · simp at h
      · rename_i a1 h1
        split at h
        · simp at h
        · rename_i a2 h2
          simp only [Option.some.injEq] at h
          subst h
          simp only [dvFound, ih (.e e) _ h1, ih (.exprList rest) _ h2]
          cases a1 <;> cases a2 <;> rfl
    | .eosList (a :: rest) =>
      simp only [allPatsIdent] at h
      split at h
      · simp at h
      · rename_i a1 h1
        split at h
        · simp at h
        · rename_i a2 h2
          simp only [Option.some.injEq] at h
          subst h
          simp only [dvFound, ih (.eos a) _ h1, ih (.eosList rest) _ h2]
          cases a1 <;> cases a2 <;> rfl
    | .patList (p :: rest) =>
      simp only [allPatsIdent] at h
      split at h
      · simp at h
      · rename_i a1 h1
        split at h
        · simp at h
        · rename_i a2 h2
          simp only [Option.some.injEq] at h
          subst h
          simp only [dvFound, ih (.p p) _ h1, ih (.patList rest) _ h2]
          cases a1 <;> cases a2 <;> rfl
    | .opp (.keyValue key value) =>
      simp only [allPatsIdent] at h
      split at h
      · simp at h
      · rename_i a1 h1
        split at h
        · simp at h
        · rename_i a2 h2
          simp only [Option.some.injEq] at h
          subst h
          simp only [dvFound, ih (.pname key) _ h1, ih (.p value) _ h2]
          cases a1 <;> cases a2 <;> rfl
    | .oppList (x :: rest) =>
      simp only [allPatsIdent] at h
      split at h
      · simp at h
      · rename_i a1 h1
        split at h
        · simp at h
        · rename_i a2 h2
          simp only [Option.some.injEq] at h
          subst h
          simp only [dvFound, ih (.opp x) _ h1, ih (.oppList rest) _ h2]
          cases a1 <;> cases a2 <;> rfl
    | .stmtList (x :: rest) =>
      simp only [allPatsIdent] at h
      split at h
      · simp at h
      · rename_i a1 h1
        split at h
        · simp at h
        · rename_i a2 h2
          simp only [Option.some.injEq] at h
          subst h
          simp only [dvFound, ih (.s x) _ h1, ih (.stmtList rest) _ h2]
          cases a1 <;> cases a2 <;> rfl
    | .vdrList (x :: rest) =>
      simp only [allPatsIdent] at h
      split at h
      · simp at h
      · rename_i a1 h1
        split at h
        · simp at h
        · rename_i a2 h2
          simp only [Option.some.injEq] at h
          subst h
          simp only [dvFound, ih (.vdr x) _ h1, ih (.vdrList rest) _ h2]
          cases a1 <;> cases a2 <;> rfl
    | .p (.array elems) =>
      simp only [allPatsIdent] at h
      split at h
      · simp at h
      · rename_i a1 h1
        simp only [Option.some.injEq] at h
        subst h
        simp only [dvFound, ih (.optPatList elems) _ h1]
        rfl
    | .p (.object props) =>
      simp only [allPatsIdent] at h
      split at h
      · simp at h
      · rename_i a1 h1
        simp only [Option.some.injEq] at h
        subst h
        simp only [dvFound, ih (.oppList props) _ h1]
        rfl
    | .p (.rest a) =>
      simp only [allPatsIdent] at h
      split at h
      · simp at h
      · rename_i a1 h1
        simp only [Option.some.injEq] at h
        subst h
        simp only [dvFound, ih (.p a) _ h1]
        rfl
    | .p (.exprPat e) =>
      simp only [allPatsIdent] at h
      split at h
      · simp at h
      · rename_i a1 h1
        simp only [Option.some.injEq] at h
        subst h
        simp only [dvFound, ih (.e e) _ h1]
        rfl
    | .p (.assign l r) =>
      simp only [allPatsIdent] at h
      split at h
      · simp at h
      · rename_i a1 h1
        split at h
        · simp at h
        · rename_i a2 h2
          simp only [Option.some.injEq] at h
          subst h
          simp only [dvFound, ih (.p l) _ h1, ih (.e r) _ h2]
          rfl
    | .e (.cond t c a) =>
      simp only [allPatsIdent] at h
      split at h
      · simp at h
      · rename_i a1 h1
        split at h
        · simp at h
        · rename_i a2 h2
          split at h
          · simp at h
          · rename_i a3 h3
            simp only [Option.some.injEq] at h
            subst h
            simp only [dvFound, ih (.e t) _ h1, ih (.e c) _ h2, ih (.e a) _ h3]
            cases a1 <;> cases a2 <;> cases a3 <;> rfl
    | .optEosList (a :: rest) =>
      cases a with
      | none =>
        simp only [allPatsIdent] at h
        split at h
        · simp at h
        · rename_i a2 h2
          simp only [Option.some.injEq] at h
          subst h
          simp only [dvFound, ih (.optEosList rest) _ h2]
          cases a2 <;> rfl
      | some x =>
        simp only [allPatsIdent] at h
        split at h
        · simp at h
        · rename_i a1 h1
          split at h
          · simp at h
          · rename_i a2 h2
            simp only [Option.some.injEq] at h
            subst h
            simp only [dvFound, ih (.eos x) _ h1, ih (.optEosList rest) _ h2]
            cases a1 <;> cases a2 <;> rfl
    | .optPatList (p :: rest) =>
      cases p with
      | none =>
        simp only [allPatsIdent] at h
        split at h
        · simp at h
        · rename_i a2 h2
          simp only [Option.some.injEq] at h
          subst h
          simp only [dvFound, ih (.optPatList rest) _ h2]
          cases a2 <;> rfl
      | some y =>
        simp only [allPatsIdent] at h
        split at h
        · simp at h
        · rename_i a1 h1
          split at h
          · simp at h
          · rename_i a2 h2
            simp only [Option.some.injEq] at h
            subst h
            simp only [dvFound, ih (.p y) _ h1, ih (.optPatList rest) _ h2]
            cases a1 <;> cases a2 <;> rfl
    | .opp (.assignProp _ value) =>
      cases value with
      | none =>
        simp only [allPatsIdent, Option.some.injEq] at h
        subst h
        simp [dvFound]
      | some v =>
        simp only [allPatsIdent] at h
        simp only [dvFound]
        exact ih (.e v) b h
    | .s (.ret arg) =>
      cases arg with
      | none =>
        simp only [allPatsIdent, Option.some.injEq] at h
        subst h
        simp [dvFound]
      | some e =>
        simp only [allPatsIdent] at h
        simp only [dvFound]
        exact ih (.e e) b h
    | .s (.ifStmt t c a) =>
      cases a with
      | none =>
        simp only [allPatsIdent] at h
        split at h
        · simp at h
        · rename_i a1 h1
          split at h
          · simp at h
          · rename_i a2 h2
            simp only [Option.some.injEq] at h
            subst h
            simp only [dvFound, ih (.e t) _ h1, ih (.s c) _ h2]
            cases a1 <;> cases a2 <;> rfl
      | some s2 =>
        simp only [allPatsIdent] at h
        split at h
        · simp at h
        · rename_i a1 h1
          split at h
          · simp at h
          · rename_i a2 h2
            split at h
            · simp at h
            · rename_i a3 h3
              simp only [Option.some.injEq] at h
              subst h
              simp only [dvFound, ih (.e t) _ h1, ih (.s c) _ h2, ih (.s s2) _ h3]
              cases a1 <;> cases a2 <;> cases a3 <;> rfl
    | .vdr (.mk name init) =>
      cases init with
      | none =>
        simp only [allPatsIdent] at h
        split at h
        · simp at h
        · rename_i a1 h1
          simp only [Option.some.injEq] at h
          subst h
          simp only [dvFound, ih (.p name) _ h1]
          cases a1 <;> rfl
      | some e =>
        simp only [allPatsIdent] at h
        split at h
        · simp at h
        · rename_i a1 h1
          split at h
          · simp at h
          · rename_i a2 h2
            simp only [Option.some.injEq] at h
            subst h
            simp only [dvFound, ih (.p name) _ h1, ih (.e e) _ h2]
            cases a1 <;> cases a2 <;> rfl

/-- Helper: the `SuperCallFinder` mode transition on a `super()` call
never leaves the mode unset. -/
theorem superCallUpdate_ne_none (inC : Bool) (m : Option SuperFoldingMode) :
    superCallUpdate inC m ≠ none := by
  cases m with
  | none => cases inC <;> simp [superCallUpdate]
  | some v => cases v <;> simp [superCallUpdate]

/-- Helper: a `super(...)` call expression counts at least one super. -/
theorem superCount_superCall_pos (n : Nat) (args : List ExprOrSpread) (a : Nat)
    (h : superCount n (.e (.superCall args)) = some a) : 0 < a := by
  match n with
  | 0 => simp [superCount] at h
  | k + 1 =>
    simp only [superCount] at h
    split at h
    · exact absurd h (by simp)
    · rename_i b hb
      simp only [Option.some.injEq] at h
      omega

/-- The key invariant relating the super-call count to the visitor:
whenever the count of a node is defined, the visitor run on that node is
defined too, a zero count leaves the mode unchanged, and a positive count
(or an already-set mode) leaves the mode set.  The count and the visitor
consume fuel in the same pattern, so a common fuel works for both. -/
theorem scf_invariant :
    ∀ fuel node (inC : Bool) (m : Option SuperFoldingMode) (cnt : Nat),
      superCount fuel node = some cnt →
      ∃ r, scfVisit fuel inC m node = some r ∧
        (cnt = 0 → r = m) ∧
        ((cnt ≠ 0 ∨ m ≠ none) → r ≠ none) := by
  intro fuel
  induction fuel with
  | zero =>
    intro node inC m cnt h
    simp [superCount] at h
  | succ n ih =>
    intro node inC m cnt h
    match node with
    | .e (.ident _) =>
      simp only [superCount, Option.some.injEq] at h
      subst h
      exact ⟨m, by simp [scfVisit], fun _ => rfl, fun hc => hc.resolve_left (by simp)⟩
    | .e .thisExpr =>
      simp only [superCount, Option.some.injEq] at h
      subst h
      exact ⟨m, by simp [scfVisit], fun _ => rfl, fun hc => hc.resolve_left (by simp)⟩
    | .e (.lit _) =>
      simp only [superCount, Option.some.injEq] at h
      subst h
      exact ⟨m, by simp [scfVisit], fun _ => rfl, fun hc => hc.resolve_left (by simp)⟩
    | .e (.fnExpr _ _) =>
      simp only [superCount, Option.some.injEq] at h
      subst h
      exact ⟨m, by simp [scfVisit], fun _ => rfl, fun hc => hc.resolve_left (by simp)⟩
    | .exprList [] =>
      simp only [superCount, Option.some.injEq] at h
      subst h
      exact ⟨m, by simp [scfVisit], fun _ => rfl, fun hc => hc.resolve_left (by simp)⟩
    | .eosList [] =>
      simp only [superCount, Option.some.injEq] at h
      subst h
      exact ⟨m, by simp [scfVisit], fun _ => rfl, fun hc => hc.resolve_left (by simp)⟩
    | .optEosList [] =>
      simp only [superCount, Option.some.injEq] at h
      subst h
      exact ⟨m, by simp [scfVisit], fun _ => rfl, fun hc => hc.resolve_left (by simp)⟩
    | .p (.ident _) =>
      simp only [superCount, Option.some.injEq] at h
      subst h
      exact ⟨m, by simp [scfVisit], fun _ => rfl, fun hc => hc.resolve_left (by simp)⟩
    | .patList [] =>
      simp only [superCount, Option.some.injEq] at h
      subst h
      exact ⟨m, by simp [scfVisit], fun _ => rfl, fun hc => hc.resolve_left (by simp)⟩
    | .optPatList [] =>
      simp only [superCount, Option.some.injEq] at h
      subst h
      exact ⟨m, by simp [scfVisit], fun _ => rfl, fun hc => hc.resolve_left (by simp)⟩
    | .oppList [] =>
      simp only [superCount, Option.some.injEq] at h
      subst h
      exact ⟨m, by simp [scfVisit], fun _ => rfl, fun hc => hc.resolve_left (by simp)⟩
    | .pname (.identKey _) =>
      simp only [superCount, Option.some.injEq] at h
      subst h
      exact ⟨m, by simp [scfVisit], fun _ => rfl, fun hc => hc.resolve_left (by simp)⟩
    | .pname (.strKey _) =>
      simp only [superCount, Option.some.injEq] at h
      subst h
      exact ⟨m, by simp [scfVisit], fun _ => rfl, fun hc => hc.resolve_left (by simp)⟩
    | .pname (.numKey _) =>
      simp only [superCount, Option.some.injEq] at h
      subst h
      exact ⟨m, by simp [scfVisit], fun _ => rfl, fun hc => hc.resolve_left (by simp)⟩
    | .stmtList [] =>
      simp only [superCount, Option.some.injEq] at h
      subst h
      exact ⟨m, by simp [scfVisit], fun _ => rfl, fun hc => hc.resolve_left (by simp)⟩
    | .vdrList [] =>
      simp only [superCount, Option.some.injEq] at h
      subst h
      exact ⟨m, by simp [scfVisit], fun _ => rfl, fun hc => hc.resolve_left (by simp)⟩
    | .e (.unary _ x1) =>
      simp only [superCount] at h
      simp only [scfVisit]
      exact ih (.e x1) inC m cnt h
    | .e (.seq x1) =>
      simp only [superCount] at h
      simp only [scfVisit]
      exact ih (.exprList x1) inC m cnt h
    | .e (.array x1) =>
      simp only [superCount] at h
      simp only [scfVisit]
      exact ih (.optEosList x1) inC m cnt h
    | .eos x1 =>
      simp only [superCount] at h
      simp only [scfVisit]
      exact ih (.e x1.expr) inC m cnt h
    | .p (.array x1) =>
      simp only [superCount] at h
      simp only [scfVisit]
      exact ih (.optPatList x1) inC m cnt h
    | .p (.object x1) =>
      simp only [superCount] at h
      simp only [scfVisit]
      exact ih (.oppList x1) inC m cnt h
    | .p (.rest x1) =>
      simp only [superCount] at h
      simp only [scfVisit]
      exact ih (.p x1) inC m cnt h
    | .p (.exprPat x1) =>
      simp only [superCount] at h
      simp only [scfVisit]
      exact ih (.e x1) inC m cnt h
    | .pname (.computed x1) =>
      simp only [superCount] at h
      simp only [scfVisit]
      exact ih (.e x1) true m cnt h
    | .poe (.pat x1) =>
      simp only [superCount] at h
      simp only [scfVisit]
      exact ih (.p x1) inC m cnt h
    | .poe (.expr x1) =>
      simp only [superCount] at h
      simp only [scfVisit]
      exact ih (.e x1) inC m cnt h
    | .s (.expr x1) =>
      simp only [superCount] at h
      simp only [scfVisit]
      exact ih (.e x1) inC m cnt h
    | .s (.decl x1) =>
      simp only [superCount] at h
      simp only [scfVisit]
      exact ih (.vd x1) inC m cnt h
    | .s (.block x1) =>
      simp only [superCount] at h
      simp only [scfVisit]
      exact ih (.stmtList x1) inC m cnt h
    | .vd (.mk _ x1) =>
      simp only [superCount] at h
      simp only [scfVisit]
      exact ih (.vdrList x1) inC m cnt h
    | .e (.call x1 x2) =>
      simp only [superCount] at h
      split at h
      · exact absurd h (by simp)
      · rename_i a h1
        split at h
        · exact absurd h (by simp)
        · rename_i b h2
          simp only [Option.some.injEq] at h
          subst h
          obtain ⟨r1, hv1, hz1, hnz1⟩ := ih (.e x1) inC m a h1
          obtain ⟨r2, hv2, hz2, hnz2⟩ := ih (.eosList x2) inC r1 b h2
          refine ⟨r2, ?_, ?_, ?_⟩
          · simp only [scfVisit, hv1, hv2]
          · intro hc
            rw [hz2 (by omega), hz1 (by omega)]
          · intro hc
            by_cases hb : b = 0
            · rw [hz2 hb]
              by_cases ha : a = 0
              · rw [hz1 ha]
                rcases hc with hc | hc
                · exact absurd (by omega) hc
                · exact hc
              · exact hnz1 (Or.inl ha)
            · exact hnz2 (Or.inl hb)
    | .e (.newExpr x1 x2) =>
      simp only [superCount] at h
      split at h
      · exact absurd h (by simp)
      · rename_i a h1
        split at h
        · exact absurd h (by simp)
        · rename_i b h2
          simp only [Option.some.injEq] at h
          subst h
          obtain ⟨r1, hv1, hz1, hnz1⟩ := ih (.e x1) inC m a h1
          obtain ⟨r2, hv2, hz2, hnz2⟩ := ih (.eosList x2) inC r1 b h2
          refine ⟨r2, ?_, ?_, ?_⟩
          · simp only [scfVisit, hv1, hv2]
          · intro hc
            rw [hz2 (by omega), hz1 (by omega)]
          · intro hc
            by_cases hb : b = 0
            · rw [hz2 hb]
              by_cases ha : a = 0
              · rw [hz1 ha]
                rcases hc with hc | hc
                · exact absurd (by omega) hc
                · exact hc
              · exact hnz1 (Or.inl ha)
            · exact hnz2 (Or.inl hb)
    | .e (.assign x1 x2) =>
      simp only [superCount] at h
      split at h
      · exact absurd h (by simp)
      · rename_i a h1
        split at h
        · exact absurd h (by simp)
        · rename_i b h2
          simp only [Option.some.injEq] at h
          subst h
          obtain ⟨r1, hv1, hz1, hnz1⟩ := ih (.poe x1) inC m a h1
          obtain ⟨r2, hv2, hz2, hnz2⟩ := ih (.e x2) true r1 b h2
          refine ⟨r2, ?_, ?_, ?_⟩
          · simp only [scfVisit, hv1, hv2]
          · intro hc
            rw [hz2 (by omega), hz1 (by omega)]
          · intro hc
            by_cases hb : b = 0
            · rw [hz2 hb]
              by_cases ha : a = 0
              · rw [hz1 ha]
                rcases hc with hc | hc
                · exact absurd (by omega) hc
                · exact hc
              · exact hnz1 (Or.inl ha)
            · exact hnz2 (Or.inl hb)
    | .e (.bin _ x1 x2) =>
      simp only [superCount] at h
      split at h
      · exact absurd h (by simp)
      · rename_i a h1
        split at h
        · exact absurd h (by simp)
        · rename_i b h2
          simp only [Option.some.injEq] at h
          subst h
          obtain ⟨r1, hv1, hz1, hnz1⟩ := ih (.e x1) inC m a h1
          obtain ⟨r2, hv2, hz2, hnz2⟩ := ih (.e x2) inC r1 b h2
          refine ⟨r2, ?_, ?_, ?_⟩
          · simp only [scfVisit, hv1, hv2]
          · intro hc
            rw [hz2 (by omega), hz1 (by omega)]
          · intro hc
            by_cases hb : b = 0
            · rw [hz2 hb]
              by_cases ha : a = 0
              · rw [hz1 ha]
                rcases hc with hc | hc
                · exact absurd (by omega) hc
                · exact hc
              · exact hnz1 (Or.inl ha)
            · exact hnz2 (Or.inl hb)
    | .e (.arrow x1 x2) =>
      simp only [superCount] at h
      split at h
      · exact absurd h (by simp)
      · rename_i a h1
        split at h
        · exact absurd h (by simp)
        · rename_i b h2
          simp only [Option.some.injEq] at h
          subst h
          obtain ⟨r1, hv1, hz1, hnz1⟩ := ih (.patList x1) true m a h1
          obtain ⟨r2, hv2, hz2, hnz2⟩ := ih (.stmtList x2) true r1 b h2
          refine ⟨r2, ?_, ?_, ?_⟩
          · simp only [scfVisit, hv1, hv2]
          · intro hc
            rw [hz2 (by omega), hz1 (by omega)]
          · intro hc
            by_cases hb : b = 0
            · rw [hz2 hb]
              by_cases ha : a = 0
              · rw [hz1 ha]
                rcases hc with hc | hc
                · exact absurd (by omega) hc
                · exact hc
              · exact hnz1 (Or.inl ha)
            · exact hnz2 (Or.inl hb)
    | .exprList (x1 :: x2) =>
      simp only [superCount] at h
      split at h
      · exact absurd h (by simp)
      · rename_i a h1
        split at h
        · exact absurd h (by simp)
        · rename_i b h2
          simp only [Option.some.injEq] at h
          subst h
          obtain ⟨r1, hv1, hz1, hnz1⟩ := ih (.e x1) inC m a h1
          obtain ⟨r2, hv2, hz2, hnz2⟩ := ih (.exprList x2) inC r1 b h2
          refine ⟨r2, ?_, ?_, ?_⟩
          · simp only [scfVisit, hv1, hv2]
          · intro hc
            rw [hz2 (by omega), hz1 (by omega)]
          · intro hc
            by_cases hb : b = 0
            · rw [hz2 hb]
              by_cases ha : a = 0
              · rw [hz1 ha]
                rcases hc with hc | hc
                · exact absurd (by omega) hc
                · exact hc
              · exact hnz1 (Or.inl ha)
            · exact hnz2 (Or.inl hb)
    | .eosList (x1 :: x2) =>
      simp only [superCount] at h
      split at h
      · exact absurd h (by simp)
      · rename_i a h1
        split at h
        · exact absurd h (by simp)
        · rename_i b h2
          simp only [Option.some.injEq] at h
          subst h
          obtain ⟨r1, hv1, hz1, hnz1⟩ := ih (.eos x1) inC m a h1
          obtain ⟨r2, hv2, hz2, hnz2⟩ := ih (.eosList x2) inC r1 b h2
          refine ⟨r2, ?_, ?_, ?_⟩
          · simp only [scfVisit, hv1, hv2]
          · intro hc
            rw [hz2 (by omega), hz1 (by omega)]
          · intro hc
            by_cases hb : b = 0
            · rw [hz2 hb]
              by_cases ha : a = 0
              · rw [hz1 ha]
                rcases hc with hc | hc
                · exact absurd (by omega) hc
                · exact hc
              · exact hnz1 (Or.inl ha)
            · exact hnz2 (Or.inl hb)
    | .p (.assign x1 x2) =>
      simp only [superCount] at h
      split at h
      · exact absurd h (by simp)
      · rename_i a h1
        split at h
        · exact absurd h (by simp)
        · rename_i b h2
          simp only [Option.some.injEq] at h
          subst h
          obtain ⟨r1, hv1, hz1, hnz1⟩ := ih (.p x1) inC m a h1
          obtain ⟨r2, hv2, hz2, hnz2⟩ := ih (.e x2) inC r1 b h2
          refine ⟨r2, ?_, ?_, ?_⟩
          · simp only [scfVisit, hv1, hv2]
          · intro hc
            rw [hz2 (by omega), hz1 (by omega)]
          · intro hc
            by_cases hb : b = 0
            · rw [hz2 hb]
              by_cases ha : a = 0
              · rw [hz1 ha]
                rcases hc with hc | hc
                · exact absurd (by omega) hc
                · exact hc
              · exact hnz1 (Or.inl ha)
            · exact hnz2 (Or.inl hb)
    | .patList (x1 :: x2) =>
      simp only [superCount] at h
      split at h
      · exact absurd h (by simp)
      · rename_i a h1
        split at h
        · exact absurd h (by simp)
        · rename_i b h2
          simp only [Option.some.injEq] at h
          subst h
          obtain ⟨r1, hv1, hz1, hnz1⟩ := ih (.p x1) inC m a h1
          obtain ⟨r2, hv2, hz2, hnz2⟩ := ih (.patList x2) inC r1 b h2
          refine ⟨r2, ?_, ?_, ?_⟩
          · simp only [scfVisit, hv1, hv2]
          · intro hc
            rw [hz2 (by omega), hz1 (by omega)]
          · intro hc
            by_cases hb : b = 0
            · rw [hz2 hb]
              by_cases ha : a = 0
              · rw [hz1 ha]
                rcases hc with hc | hc
                · exact absurd (by omega) hc
                · exact hc
              · exact hnz1 (Or.inl ha)
            · exact hnz2 (Or.inl hb)
    | .opp (.keyValue x1 x2) =>
      simp only [superCount] at h
      split at h
      · exact absurd h (by simp)
      · rename_i a h1
        split at h
        · exact absurd h (by simp)
        · rename_i b h2
          simp only [Option.some.injEq] at h
          subst h
          obtain ⟨r1, hv1, hz1, hnz1⟩ := ih (.pname x1) inC m a h1
          obtain ⟨r2, hv2, hz2, hnz2⟩ := ih (.p x2) inC r1 b h2
          refine ⟨r2, ?_, ?_, ?_⟩
          · simp only [scfVisit, hv1, hv2]
          · intro hc
            rw [hz2 (by omega), hz1 (by omega)]
          · intro hc
            by_cases hb : b = 0
            · rw [hz2 hb]
              by_cases ha : a = 0
              · rw [hz1 ha]
                rcases hc with hc | hc
                · exact absurd (by omega) hc
                · exact hc
              · exact hnz1 (Or.inl ha)
            · exact hnz2 (Or.inl hb)
    | .oppList (x1 :: x2) =>
      simp only [superCount] at h
      split at h
      · exact absurd h (by simp)
      · rename_i a h1
        split at h
        · exact absurd h (by simp)
        · rename_i b h2
          simp only [Option.some.injEq] at h
          subst h
          obtain ⟨r1, hv1, hz1, hnz1⟩ := ih (.opp x1) inC m a h1
          obtain ⟨r2, hv2, hz2, hnz2⟩ := ih (.oppList x2) inC r1 b h2
          refine ⟨r2, ?_, ?_, ?_⟩
          · simp only [scfVisit, hv1, hv2]
          · intro hc
            rw [hz2 (by omega), hz1 (by omega)]
          · intro hc
            by_cases hb : b = 0
            · rw [hz2 hb]
              by_cases ha : a = 0
              · rw [hz1 ha]
                rcases hc with hc | hc
                · exact absurd (by omega) hc
                · exact hc
              · exact hnz1 (Or.inl ha)
            · exact hnz2 (Or.inl hb)
    | .stmtList (x1 :: x2) =>
      simp only [superCount] at h
      split at h
      · exact absurd h (by simp)
      · rename_i a h1
        split at h
        · exact absurd h (by simp)
        · rename_i b h2
          simp only [Option.some.injEq] at h
          subst h
          obtain ⟨r1, hv1, hz1, hnz1⟩ := ih (.s x1) inC m a h1
          obtain ⟨r2, hv2, hz2, hnz2⟩ := ih (.stmtList x2) inC r1 b h2
          refine ⟨r2, ?_, ?_, ?_⟩
          · simp only [scfVisit, hv1, hv2]
          · intro hc
            rw [hz2 (by omega), hz1 (by omega)]
          · intro hc
            by_cases hb : b = 0
            · rw [hz2 hb]
              by_cases ha : a = 0
              · rw [hz1 ha]
                rcases hc with hc | hc
                · exact absurd (by omega) hc
                · exact hc
              · exact hnz1 (Or.inl ha)
            · exact hnz2 (Or.inl hb)
    | .vdrList (x1 :: x2) =>
      simp only [superCount] at h
      split at h
      · exact absurd h (by simp)
      · rename_i a h1
        split at h
        · exact absurd h (by simp)
        · rename_i b h2
          simp only [Option.some.injEq] at h
          subst h
          obtain ⟨r1, hv1, hz1, hnz1⟩ := ih (.vdr x1) inC m a h1
          obtain ⟨r2, hv2, hz2, hnz2⟩ := ih (.vdrList x2) inC r1 b h2
          refine ⟨r2, ?_, ?_, ?_⟩
          · simp only [scfVisit, hv1, hv2]
          · intro hc
            rw [hz2 (by omega), hz1 (by omega)]
          · intro hc
            by_cases hb : b = 0
            · rw [hz2 hb]
              by_cases ha : a = 0
              · rw [hz1 ha]
                rcases hc with hc | hc
                · exact absurd (by omega) hc
                · exact hc
              · exact hnz1 (Or.inl ha)
            · exact hnz2 (Or.inl hb)
    | .e (.superCall x1) =>
      simp only [superCount] at h
      split at h
      · exact absurd h (by simp)
      · rename_i a h1
        simp only [Option.some.injEq] at h
        subst h
        refine ⟨superCallUpdate inC m, ?_, ?_, ?_⟩
        · simp only [scfVisit]
        · intro hc
          exact absurd hc (by omega)
        · intro hc
          exact superCallUpdate_ne_none inC m
    | .e (.cond x1 x2 x3) =>
      simp only [superCount] at h
      split at h
      · exact absurd h (by simp)
      · rename_i a h1
        split at h
        · exact absurd h (by simp)
        · rename_i b h2
          split at h
          · exact absurd h (by simp)
          · rename_i c h3
            simp only [Option.some.injEq] at h
            subst h
            obtain ⟨r1, hv1, hz1, hnz1⟩ := ih (.e x1) inC m a h1
            obtain ⟨r2, hv2, hz2, hnz2⟩ := ih (.e x2) inC r1 b h2
            obtain ⟨r3, hv3, hz3, hnz3⟩ := ih (.e x3) inC r2 c h3
            refine ⟨r3, ?_, ?_, ?_⟩
            · simp only [scfVisit, hv1, hv2, hv3]
            · intro hc
              rw [hz3 (by omega), hz2 (by omega), hz1 (by omega)]
            · intro hc
              by_cases hcc : c = 0
              · rw [hz3 hcc]
                by_cases hb : b = 0
                · rw [hz2 hb]
                  by_cases ha : a = 0
                  · rw [hz1 ha]
                    rcases hc with hc | hc
                    · exact absurd (by omega) hc
                    · exact hc
                  · exact hnz1 (Or.inl ha)
                · exact hnz2 (Or.inl hb)
              · exact hnz3 (Or.inl hcc)
    | .e (.member x1 x2 x3) =>
      simp only [superCount] at h
      split at h
      · exact absurd h (by simp)
      · rename_i a h1
        split at h
        · exact absurd h (by simp)
        · rename_i b h2
          simp only [Option.some.injEq] at h
          subst h
          obtain ⟨r1, hv1, hz1, hnz1⟩ := ih (.e x1) inC m a h1
          obtain ⟨r2, hv2, hz2, hnz2⟩ := ih (.e x2) inC r1 b h2
          cases x1 with
          | superCall y1 =>
            refine ⟨some .assign, ?_, ?_, ?_⟩
            · simp only [scfVisit, hv1, hv2]
            · intro hc
              have hpos := superCount_superCall_pos n y1 a h1
              exact absurd hc (by omega)
            · intro hc
              simp
          | ident y1 =>
            refine ⟨r2, ?_, ?_, ?_⟩
            · simp only [scfVisit, hv1, hv2]
            · intro hc
              rw [hz2 (by omega), hz1 (by omega)]
            · intro hc
              by_cases hb : b = 0
              · rw [hz2 hb]
                by_cases ha : a = 0
                · rw [hz1 ha]
                  rcases hc with hc | hc
                  · exact absurd (by omega) hc
                  · exact hc
                · exact hnz1 (Or.inl ha)
              · exact hnz2 (Or.inl hb)
          | thisExpr =>
            refine ⟨r2, ?_, ?_, ?_⟩
            · simp only [scfVisit, hv1, hv2]
            · intro hc
              rw [hz2 (by omega), hz1 (by omega)]
            · intro hc
              by_cases hb : b = 0
              · rw [hz2 hb]
                by_cases ha : a = 0
                · rw [hz1 ha]
                  rcases hc with hc | hc
                  · exact absurd (by omega) hc
                  · exact hc
                · exact hnz1 (Or.inl ha)
              · exact hnz2 (Or.inl hb)
          | lit y1 =>
            refine ⟨r2, ?_, ?_, ?_⟩
            · simp only [scfVisit, hv1, hv2]
            · intro hc
              rw [hz2 (by omega), hz1 (by omega)]
            · intro hc
              by_cases hb : b = 0
              · rw [hz2 hb]
                by_cases ha : a = 0
                · rw [hz1 ha]
                  rcases hc with hc | hc
                  · exact absurd (by omega) hc
                  · exact hc
                · exact hnz1 (Or.inl ha)
              · exact hnz2 (Or.inl hb)
          | call y1 y2 =>
            refine ⟨r2, ?_, ?_, ?_⟩
            · simp only [scfVisit, hv1, hv2]
            · intro hc
              rw [hz2 (by omega), hz1 (by omega)]
            · intro hc
              by_cases hb : b = 0
              · rw [hz2 hb]
                by_cases ha : a = 0
                · rw [hz1 ha]
                  rcases hc with hc | hc
                  · exact absurd (by omega) hc
                  · exact hc
                · exact hnz1 (Or.inl ha)
              · exact hnz2 (Or.inl hb)
          | newExpr y1 y2 =>
            refine ⟨r2, ?_, ?_, ?_⟩
            · simp only [scfVisit, hv1, hv2]
            · intro hc
              rw [hz2 (by omega), hz1 (by omega)]
            · intro hc
              by_cases hb : b = 0
              · rw [hz2 hb]
                by_cases ha : a = 0
                · rw [hz1 ha]
                  rcases hc with hc | hc
                  · exact absurd (by omega) hc
                  · exact hc
                · exact hnz1 (Or.inl ha)
              · exact hnz2 (Or.inl hb)
          | member y1 y2 y3 =>
            refine ⟨r2, ?_, ?_, ?_⟩
            · simp only [scfVisit, hv1, hv2]
            · intro hc
              rw [hz2 (by omega), hz1 (by omega)]
            · intro hc
              by_cases hb : b = 0
              · rw [hz2 hb]
                by_cases ha : a = 0
                · rw [hz1 ha]
                  rcases hc with hc | hc
                  · exact absurd (by omega) hc
                  · exact hc
                · exact hnz1 (Or.inl ha)
              · exact hnz2 (Or.inl hb)
          | assign y1 y2 =>
            refine ⟨r2, ?_, ?_, ?_⟩
            · simp only [scfVisit, hv1, hv2]
            · intro hc
              rw [hz2 (by omega), hz1 (by omega)]
            · intro hc
              by_cases hb : b = 0
              · rw [hz2 hb]
                by_cases ha : a = 0
                · rw [hz1 ha]
                  rcases hc with hc | hc
                  · exact absurd (by omega) hc
                  · exact hc
                · exact hnz1 (Or.inl ha)
              · exact hnz2 (Or.inl hb)
          | cond y1 y2 y3 =>
            refine ⟨r2, ?_, ?_, ?_⟩
            · simp only [scfVisit, hv1, hv2]
            · intro hc
              rw [hz2 (by omega), hz1 (by omega)]
            · intro hc
              by_cases hb : b = 0
              · rw [hz2 hb]
                by_cases ha : a = 0
                · rw [hz1 ha]
                  rcases hc with hc | hc
                  · exact absurd (by omega) hc
                  · exact hc
                · exact hnz1 (Or.inl ha)
              · exact hnz2 (Or.inl hb)
          | bin y1 y2 y3 =>
            refine ⟨r2, ?_, ?_, ?_⟩
            · simp only [scfVisit, hv1, hv2]
            · intro hc
              rw [hz2 (by omega), hz1 (by omega)]
            · intro hc
              by_cases hb : b = 0
              · rw [hz2 hb]
                by_cases ha : a = 0
                · rw [hz1 ha]
                  rcases hc with hc | hc
                  · exact absurd (by omega) hc
                  · exact hc
                · exact hnz1 (Or.inl ha)
              · exact hnz2 (Or.inl hb)
          | unary y1 y2 =>
            refine ⟨r2, ?_, ?_, ?_⟩
            · simp only [scfVisit, hv1, hv2]
            · intro hc
              rw [hz2 (by omega), hz1 (by omega)]
            · intro hc
              by_cases hb : b = 0
              · rw [hz2 hb]
                by_cases ha : a = 0
                · rw [hz1 ha]
                  rcases hc with hc | hc
                  · exact absurd (by omega) hc
                  · exact hc
                · exact hnz1 (Or.inl ha)
              · exact hnz2 (Or.inl hb)
          | seq y1 =>
            refine ⟨r2, ?_, ?_, ?_⟩
            · simp only [scfVisit, hv1, hv2]
            · intro hc
              rw [hz2 (by omega), hz1 (by omega)]
            · intro hc
              by_cases hb : b = 0
              · rw [hz2 hb]
                by_cases ha : a = 0
                · rw [hz1 ha]
                  rcases hc with hc | hc
                  · exact absurd (by omega) hc
                  · exact hc
                · exact hnz1 (Or.inl ha)
              · exact hnz2 (Or.inl hb)
          | arrow y1 y2 =>
            refine ⟨r2, ?_, ?_, ?_⟩
            · simp only [scfVisit, hv1, hv2]
            · intro hc
              rw [hz2 (by omega), hz1 (by omega)]
            · intro hc
              by_cases hb : b = 0
              · rw [hz2 hb]
                by_cases ha : a = 0
                · rw [hz1 ha]
                  rcases hc with hc | hc
                  · exact absurd (by omega) hc
                  · exact hc
                · exact hnz1 (Or.inl ha)
              · exact hnz2 (Or.inl hb)
          | fnExpr y1 y2 =>
            refine ⟨r2, ?_, ?_, ?_⟩
            · simp only [scfVisit, hv1, hv2]
            · intro hc
              rw [hz2 (by omega), hz1 (by omega)]
            · intro hc
              by_cases hb : b = 0
              · rw [hz2 hb]
                by_cases ha : a = 0
                · rw [hz1 ha]
                  rcases hc with hc | hc
                  · exact absurd (by omega) hc
                  · exact hc
                · exact hnz1 (Or.inl ha)
              · exact hnz2 (Or.inl hb)
          | array y1 =>
            refine ⟨r2, ?_, ?_, ?_⟩
            · simp only [scfVisit, hv1, hv2]
            · intro hc
              rw [hz2 (by omega), hz1 (by omega)]
            · intro hc
              by_cases hb : b = 0
              · rw [hz2 hb]
                by_cases ha : a = 0
                · rw [hz1 ha]
                  rcases hc with hc | hc
                  · exact absurd (by omega) hc
                  · exact hc
                · exact hnz1 (Or.inl ha)
              · exact hnz2 (Or.inl hb)
    | .s (.ifStmt x1 x2 x3) =>
      cases x3 with
      | none =>
        simp only [superCount] at h
        split at h
        · exact absurd h (by simp)
        · rename_i a h1
          split at h
          · exact absurd h (by simp)
          · rename_i b h2
            simp only [Option.some.injEq] at h
            subst h
            obtain ⟨r1, hv1, hz1, hnz1⟩ := ih (.e x1) true m a h1
            obtain ⟨r2, hv2, hz2, hnz2⟩ := ih (.s x2) true r1 b h2
            refine ⟨r2, ?_, ?_, ?_⟩
            · simp only [scfVisit, hv1, hv2]
            · intro hc
              rw [hz2 (by omega), hz1 (by omega)]
            · intro hc
              by_cases hb : b = 0
              · rw [hz2 hb]
                by_cases ha : a = 0
                · rw [hz1 ha]
                  rcases hc with hc | hc
                  · exact absurd (by omega) hc
                  · exact hc
                · exact hnz1 (Or.inl ha)
              · exact hnz2 (Or.inl hb)
      | some y1 =>
        simp only [superCount] at h
        split at h
        · exact absurd h (by simp)
        · rename_i a h1
          split at h
          · exact absurd h (by simp)
          · rename_i b h2
            split at h
            · exact absurd h (by simp)
            · rename_i c h3
              simp only [Option.some.injEq] at h
              subst h
              obtain ⟨r1, hv1, hz1, hnz1⟩ := ih (.e x1) true m a h1
              obtain ⟨r2, hv2, hz2, hnz2⟩ := ih (.s x2) true r1 b h2
              obtain ⟨r3, hv3, hz3, hnz3⟩ := ih (.s y1) true r2 c h3
              refine ⟨r3, ?_, ?_, ?_⟩
              · simp only [scfVisit, hv1, hv2, hv3]
              · intro hc
                rw [hz3 (by omega), hz2 (by omega), hz1 (by omega)]
              · intro hc
                by_cases hcc : c = 0
                · rw [hz3 hcc]
                  by_cases hb : b = 0
                  · rw [hz2 hb]
                    by_cases ha : a = 0
                    · rw [hz1 ha]
                      rcases hc with hc | hc
                      · exact absurd (by omega) hc
                      · exact hc
                    · exact hnz1 (Or.inl ha)
                  · exact hnz2 (Or.inl hb)
                · exact hnz3 (Or.inl hcc)
    | .s (.ret x1) =>
      cases x1 with
      | none =>
        simp only [superCount, Option.some.injEq] at h
        subst h
        exact ⟨m, by simp [scfVisit], fun _ => rfl, fun hc => hc.resolve_left (by simp)⟩
      | some y1 =>
        simp only [superCount] at h
        simp only [scfVisit]
        exact ih (.e y1) inC m cnt h
    | .opp (.assignProp _ x1) =>
      cases x1 with
      | none =>
        simp only [superCount, Option.some.injEq] at h
        subst h
        exact ⟨m, by simp [scfVisit], fun _ => rfl, fun hc => hc.resolve_left (by simp)⟩
      | some y1 =>
        simp only [superCount] at h
        simp only [scfVisit]
        exact ih (.e y1) inC m cnt h
    | .vdr (.mk x1 x2) =>
      cases x2 with
      | none =>
        simp only [superCount] at h
        split at h
        · exact absurd h (by simp)
        · rename_i a h1
          simp only [Option.some.injEq] at h
          subst h
          obtain ⟨r1, hv1, hz1, hnz1⟩ := ih (.p x1) inC m a h1
          refine ⟨r1, ?_, ?_, ?_⟩
          · simp only [scfVisit, hv1]
          · intro hc
            exact hz1 (by omega)
          · intro hc
            by_cases ha : a = 0
            · rw [hz1 ha]
              rcases hc with hc | hc
              · exact absurd (by omega) hc
              · exact hc
            · exact hnz1 (Or.inl ha)
      | some y1 =>
        simp only [superCount] at h
        split at h
        · exact absurd h (by simp)
        · rename_i a h1
          split at h
          · exact absurd h (by simp)
          · rename_i b h2
            simp only [Option.some.injEq] at h
            subst h
            obtain ⟨r1, hv1, hz1, hnz1⟩ := ih (.p x1) inC m a h1
            obtain ⟨r2, hv2, hz2, hnz2⟩ := ih (.e y1) inC r1 b h2
            refine ⟨r2, ?_, ?_, ?_⟩
            · simp only [scfVisit, hv1, hv2]
            · intro hc
              rw [hz2 (by omega), hz1 (by omega)]
            · intro hc
              by_cases hb : b = 0
              · rw [hz2 hb]
                by_cases ha : a = 0
                · rw [hz1 ha]
                  rcases hc with hc | hc
                  · exact absurd (by omega) hc
                  · exact hc
                · exact hnz1 (Or.inl ha)
              · exact hnz2 (Or.inl hb)
    | .optEosList (x1 :: x2) =>
      cases x1 with
      | none =>
        simp only [superCount] at h
        split at h
        · exact absurd h (by simp)
        · rename_i b h2
          simp only [Option.some.injEq] at h
          subst h
          obtain ⟨r2, hv2, hz2, hnz2⟩ := ih (.optEosList x2) inC m b h2
          refine ⟨r2, ?_, ?_, ?_⟩
          · simp only [scfVisit, hv2]
          · intro hc
            exact hz2 (by omega)
          · intro hc
            by_cases hb : b = 0
            · rw [hz2 hb]
              rcases hc with hc | hc
              · exact absurd (by omega) hc
              · exact hc
            · exact hnz2 (Or.inl hb)
      | some y1 =>
        simp only [superCount] at h
        split at h
        · exact absurd h (by simp)
        · rename_i a h1
          split at h
          · exact absurd h (by simp)
          · rename_i b h2
            simp only [Option.some.injEq] at h
            subst h
            obtain ⟨r1, hv1, hz1, hnz1⟩ := ih (.eos y1) inC m a h1
            obtain ⟨r2, hv2, hz2, hnz2⟩ := ih (.optEosList x2) inC r1 b h2
            refine ⟨r2, ?_, ?_, ?_⟩
            · simp only [scfVisit, hv1, hv2]
            · intro hc
              rw [hz2 (by omega), hz1 (by omega)]
            · intro hc
              by_cases hb : b = 0
              · rw [hz2 hb]
                by_cases ha : a = 0
                · rw [hz1 ha]
                  rcases hc with hc | hc
                  · exact absurd (by omega) hc
                  · exact hc
                · exact hnz1 (Or.inl ha)
              · exact hnz2 (Or.inl hb)
    | .optPatList (x1 :: x2) =>
      cases x1 with
      | none =>
        simp only [superCount] at h
        split at h
        · exact absurd h (by simp)
        · rename_i b h2
          simp only [Option.some.injEq] at h
          subst h
          obtain ⟨r2, hv2, hz2, hnz2⟩ := ih (.optPatList x2) inC m b h2
          refine ⟨r2, ?_, ?_, ?_⟩
          · simp only [scfVisit, hv2]
          · intro hc
            exact hz2 (by omega)
          · intro hc
            by_cases hb : b = 0
            · rw [hz2 hb]
              rcases hc with hc | hc
              · exact absurd (by omega) hc
              · exact hc
            · exact hnz2 (Or.inl hb)
      | some y1 =>
        simp only [superCount] at h
        split at h
        · exact absurd h (by simp)
        · rename_i a h1
          split at h
          · exact absurd h (by simp)
          · rename_i b h2
            simp only [Option.some.injEq] at h
            subst h
            obtain ⟨r1, hv1, hz1, hnz1⟩ := ih (.p y1) inC m a h1
            obtain ⟨r2, hv2, hz2, hnz2⟩ := ih (.optPatList x2) inC r1 b h2
            refine ⟨r2, ?_, ?_, ?_⟩
            · simp only [scfVisit, hv1, hv2]
            · intro hc
              rw [hz2 (by omega), hz1 (by omega)]
            · intro hc
              by_cases hb : b = 0
              · rw [hz2 hb]
                by_cases ha : a = 0
                · rw [hz1 ha]
                  rcases hc with hc | hc
                  · exact absurd (by omega) hc
                  · exact hc
                · exact hnz1 (Or.inl ha)
              · exact hnz2 (Or.inl hb)

/-- Claim C3 (counterexample): on a body with two `super()` calls whose
last statement is a `super()` expression statement, `find` still returns
mode `None` (the early tail-call return fires), although a `super()` call
occurs and the `super()` in tail position is not the only one — so `None`
is not equivalent to "no super, or the only super is the tail one". -/

theorem super_call_finder_counterexample :
    SuperCallFinder.find 50 twoSuperTailBody = some none ∧
    superCount 50 (.stmtList twoSuperTailBody) = some 2 ∧
    isTailSuperStmt twoSuperTailBody = true := by
  refine ⟨rfl, rfl, rfl⟩

/-- Claim C3 (amended): given enough fuel (measured by the super-call
count being defined), `find` returns mode `None` exactly when no
`super()` call occurs in the body (not counting nested function
expressions, which are never visited) or the last top-level statement is a
`super()` expression statement — regardless of how many other `super()`
calls the body contains. -/

theorem super_call_finder_none_amended (fuel : Nat) (body : List Stmt) (cnt : Nat)
    (h : superCount fuel (.stmtList body) = some cnt) :
    SuperCallFinder.find fuel body = some none ↔
      (cnt = 0 ∨ isTailSuperStmt body = true) := by
  rw [SuperCallFinder.find]
  by_cases ht : isTailSuperStmt body
  · rw [if_pos ht]
    simp [ht]
  · rw [if_neg ht]
    obtain ⟨r, hv, hz, hnz⟩ := scf_invariant fuel (.stmtList body) false none cnt h
    rw [hv]
    constructor
    · intro he
      left
      by_contra hcnt
      have hr : r = none := by
        injection he
      exact (hnz (Or.inl hcnt)) hr
    · intro hor
      rcases hor with hc | hc
      · rw [hz hc]
      · exact absurd hc ht

/-- Witness for the amended C3 claim: a body with no `super()` at all gets
mode `None`. -/

theorem super_call_finder_none_amended_witness :
    SuperCallFinder.find 50 [Stmt.ret none] = some none :=
  (super_call_finder_none_amended 50 [Stmt.ret none] 0 rfl).mpr (Or.inl rfl)

/-- Claim C7: the fast path of the `Destructuring` pass.  If every pattern
in the statement list is a plain identifier pattern (the spec-side reading
of "no destructuring pattern occurs", expressed by `allPatsIdent`), the
precheck visitor reports that it found nothing, and in that case the pass
returns the statement list completely unchanged (and allocates no new
mark). -/

theorem destructuring_fast_path (fuel : Nat) (c : Config) (mark : Nat)
    (ss : List Stmt) :
    (allPatsIdent fuel (.stmtList ss) = some true →
      dvFound fuel (.stmtList ss) = some false) ∧
    (dvFound fuel (.stmtList ss) = some false →
      dStmts fuel c mark ss = some (ss, mark)) := by
  constructor
  · intro h
    have hdv := allPatsIdent_dvFound fuel (.stmtList ss) true h
    simpa using hdv
  · intro hdv
    cases fuel with
    | zero => simp [dvFound] at hdv
    | succ n =>
      rw [dStmts]
      simp only [foldRun, hdv]

/-- Witness for C7 at a destructuring-free statement list. -/

theorem destructuring_fast_path_witness :
    dStmts 5 ⟨false⟩ 0 [Stmt.expr (Expr.ident ⟨"x", 0⟩)] =
      some ([Stmt.expr (Expr.ident ⟨"x", 0⟩)], 0) :=
  (destructuring_fast_path 5 ⟨false⟩ 0 [Stmt.expr (Expr.ident ⟨"x", 0⟩)]).2
    ((destructuring_fast_path 5 ⟨false⟩ 0 [Stmt.expr (Expr.ident ⟨"x", 0⟩)]).1 rfl)

/-- Claim C2 (counterexample): on `let {a = 3} = o;` the pass does not
bind any `_ref` alias to `o` in its first declarator — identifier
initializers are used directly, so the claimed
`var _ref = o, _a = _ref.a, ...` shape does not appear. -/

theorem destructuring_object_default_counterexample :
    objectDefaultSpecShape (dStmts 30 ⟨false⟩ 0 objectDefaultInput) = false := by
  rfl

/-- Claim C2 (amended): on `let {a = 3} = o;` the pass emits
`let _a = o.a, a = _a === void 0 ? 3 : _a;` — the property is read
directly off the identifier initializer `o` without an `_ref` alias, the
default is chosen by an `=== void 0` conditional, and the `let` kind is
preserved (one fresh mark is consumed for `_a`). -/

theorem destructuring_object_default_amended :
    dStmts 30 ⟨false⟩ 0 objectDefaultInput = some (objectDefaultActual, 1) := by
  rfl

/-- Claim C6: rewriting a non-synthesized `super(args)` call
(`Prototype` mode with `is_constructor_default = false` and recorded
arguments): a single spread argument is unwrapped into
`getPrototypeOf(ClassName).apply(this, spread)`, and every other argument
list becomes `getPrototypeOf(ClassName).call(this, ...args)` with `this`
prepended to the original arguments (all wrapped in
`possibleConstructorReturn(this, ...)`). -/

theorem make_possible_return_value_super_spec (cn : Ident)
    (args : List ExprOrSpread) :
    (∀ e, args = [ExprOrSpread.mk true e] →
      make_possible_return_value (.prototype false cn (some args)) =
        Expr.call (helperIdent "possibleConstructorReturn")
          [.mk false .thisExpr,
           .mk false (Expr.call
             (.member (get_prototype_of (.ident cn)) (.ident ⟨"apply", 0⟩) false)
             [.mk false .thisExpr, .mk false e])]) ∧
    ((∀ e, args ≠ [ExprOrSpread.mk true e]) →
      make_possible_return_value (.prototype false cn (some args)) =
        Expr.call (helperIdent "possibleConstructorReturn")
          [.mk false .thisExpr,
           .mk false (Expr.call
             (.member (get_prototype_of (.ident cn)) (.ident ⟨"call", 0⟩) false)
             (ExprOrSpread.mk false .thisExpr :: args))]) := by
  constructor
  · intro e he
    subst he
    rfl
  · intro hne
    match args with
    | [] => rfl
    | [ExprOrSpread.mk true e] => exact absurd rfl (hne e)
    | [ExprOrSpread.mk false e] => rfl
    | ExprOrSpread.mk true e :: y :: rest => rfl
    | ExprOrSpread.mk false e :: y :: rest => rfl

/-- Witness for C6: both branches at concrete argument lists —
`super(...xs)` becomes `.apply(this, xs)` and `super(x)` becomes
`.call(this, x)`. -/

theorem make_possible_return_value_super_spec_witness :
    make_possible_return_value
        (.prototype false ⟨"Foo", 0⟩
          (some [ExprOrSpread.mk true (Expr.ident ⟨"xs", 0⟩)])) =
      Expr.call (helperIdent "possibleConstructorReturn")
        [.mk false .thisExpr,
         .mk false (Expr.call
           (.member (get_prototype_of (.ident ⟨"Foo", 0⟩))
             (.ident ⟨"apply", 0⟩) false)
           [.mk false .thisExpr, .mk false (Expr.ident ⟨"xs", 0⟩)])] ∧
    make_possible_return_value
        (.prototype false ⟨"Foo", 0⟩
          (some [ExprOrSpread.mk false (Expr.ident ⟨"x", 0⟩)])) =
      Expr.call (helperIdent "possibleConstructorReturn")
        [.mk false .thisExpr,
         .mk false (Expr.call
           (.member (get_prototype_of (.ident ⟨"Foo", 0⟩))
             (.ident ⟨"call", 0⟩) false)
           [ExprOrSpread.mk false .thisExpr,
            ExprOrSpread.mk false (Expr.ident ⟨"x", 0⟩)])] :=
  ⟨(make_possible_return_value_super_spec ⟨"Foo", 0⟩
      [ExprOrSpread.mk true (Expr.ident ⟨"xs", 0⟩)]).1
      (Expr.ident ⟨"xs", 0⟩) rfl,
   (make_possible_return_value_super_spec ⟨"Foo", 0⟩
      [ExprOrSpread.mk false (Expr.ident ⟨"x", 0⟩)]).2
      (fun e h => by simp at h)⟩

end Swc
